import Mathlib

/-!
Verification of the purchase-classification data workflow.

This file gives a shallow embedding of the repository's four source files
(`scripts/data_splitting.py`, `scripts/load_splits.py`, `scripts/train_model.py`,
`models/model.py`) and proves or refutes the frozen claims about them.

Modelling conventions:
* A pandas `DataFrame` is a list of named, typed columns; a `Series` is one column.
* Python floats used as split fractions are modelled as exact rationals; at every
  fraction appearing in the claims (0.2, 0.25) the float computations of the code
  round to the same values, so no behaviour is lost.
* `numpy` pseudo-randomness is modelled by an abstract stream of permutations
  (`RNG`): every theorem about the splitter holds for every stream that yields
  genuine permutations, which covers the seeded Mersenne-Twister stream used by
  the code.
* `pickle` round-trips every value of the persisted bundle exactly; the file
  system is modelled as an association list from paths to stored objects.
* Python exceptions are modelled by explicit error values, one constructor per
  raise site.
-/

/-- Column dtypes that can occur in the tables of this workflow
(pandas dtype kinds relevant to the code's checks). -/
inductive Dtype where
  | int64
  | float64
  | boolean
  | object
  | category
  | datetime64
deriving DecidableEq

/-- `True` for dtypes pandas treats as numeric. -/
def Dtype.isNumeric : Dtype → Bool
  | .int64 => true
  | .float64 => true
  | .boolean => true
  | .object => false
  | .category => false
  | .datetime64 => false

/-- A scalar cell value. -/
inductive Value where
  | vInt (i : Int)
  | vFloat (q : Rat)
  | vStr (s : String)
  | vBool (b : Bool)
deriving DecidableEq

/-- Constructor rank, used to order values of distinct kinds totally. -/
def Value.rank : Value → Nat
  | .vInt _ => 0
  | .vFloat _ => 1
  | .vStr _ => 2
  | .vBool _ => 3

/-- A total boolean order on scalar values (`np.unique` sorts the class
labels; the label column of this workflow is homogeneous, so only the
within-kind comparisons are ever exercised). -/
def Value.leb : Value → Value → Bool
  | .vInt a, .vInt b => a ≤ b
  | .vFloat a, .vFloat b => a ≤ b
  | .vStr a, .vStr b => a ≤ b
  | .vBool a, .vBool b => !a || b
  | a, b => a.rank < b.rank

/-- One named, typed column of a table. -/
structure Column where
  name : String
  dtype : Dtype
  values : List Value
deriving DecidableEq

/-- A pandas Series: same data as a column. -/
abbrev Series := Column

/-- A pandas DataFrame: an ordered collection of named columns. -/
structure DataFrame where
  cols : List Column
deriving DecidableEq

/-- `dataset[target_col]`: first column with the given name, if any. -/
def DataFrame.getCol (df : DataFrame) (name : String) : Option Series :=
  df.cols.find? (fun c => c.name == name)

/-- `dataset.drop(target_col, axis=1)`: remove the named column. -/
def DataFrame.drop (df : DataFrame) (name : String) : DataFrame :=
  ⟨df.cols.filter (fun c => ¬ c.name == name)⟩

/-- Select the elements of `l` at the positions listed in `idx`
(out-of-range positions select nothing; all positions produced by the
splitter are in range). -/
def selectIdx (idx : List Nat) (l : List α) : List α :=
  idx.filterMap (fun i => l.get? i)

/-- Positional row selection of a DataFrame (`x.iloc[idx]`). -/
def DataFrame.takeRows (df : DataFrame) (idx : List Nat) : DataFrame :=
  ⟨df.cols.map (fun c => { c with values := selectIdx idx c.values })⟩

/-- Positional row selection of a Series (`y.iloc[idx]`). -/
def Series.takeRows (s : Series) (idx : List Nat) : Series :=
  { s with values := selectIdx idx s.values }

/-- Errors raised by `DataSplitter.load_dataset`. -/
inductive DSError where
  /-- `FileNotFoundError` (the spec's `NotFoundError`). -/
  | fileNotFound (path : String)
  /-- `ValueError` for an extension other than `.csv`/`.xlsx`
  (the spec's `UnsupportedFormatError`). -/
  | unsupportedFormat
deriving DecidableEq

/-- The characters of the final path component (after the last `/`). -/
def pathBasename (cs : List Char) : List Char :=
  cs.foldl (fun acc ch => if ch = '/' then [] else acc ++ [ch]) []

/-- `pathlib.Path(p).suffix`: the extension of the final path component,
empty when the only dot is leading or trailing. -/
def pathSuffix (p : String) : String :=
  let base := pathBasename p.toList
  let dots := (List.range base.length).filter (fun i => base.get? i = some '.')
  match dots.getLast? with
  | some i => if 0 < i ∧ i + 1 < base.length then String.mk (base.drop i) else ""
  | none => ""

/-- The dataset file store: paths mapped to the table their bytes parse to
(`pd.read_csv` / `pd.read_excel` are modelled as returning the stored table;
byte-level parsing is outside the scope of the claims). -/
abbrev DatasetFS := List (String × DataFrame)

/-- `DataSplitter.load_dataset`: existence check, then extension dispatch. -/
def load_dataset (fs : DatasetFS) (dataset_path : String) : Except DSError DataFrame :=
  match fs.lookup dataset_path with
  | none => .error (.fileNotFound dataset_path)
  | some content =>
    if pathSuffix dataset_path = ".csv" then .ok content
    else if pathSuffix dataset_path = ".xlsx" then .ok content
    else .error .unsupportedFormat

/-- `DataSplitter.identify_categorical_features`: the names of the columns
whose dtype is `object` or `category`, in column order. -/
def identify_categorical_features (x_train : DataFrame) : List String :=
  (x_train.cols.filter
    (fun c => c.dtype == Dtype.object || c.dtype == Dtype.category)).map (fun c => c.name)

/-! ## Split persistence (`save_splits` / `load_data_splits`) -/

/-- An object stored in a pickle file: one of the bundle's value shapes.
`pickle.dump`/`pickle.load` round-trip these exactly, so serialization is
modelled as storing the object itself. -/
inductive PObj where
  | pFrame (df : DataFrame)
  | pSeries (s : Series)
  | pStrList (l : List String)
deriving DecidableEq

/-- The `output_dir` / `splits_path` argument: either a string (resolved
against the project root, i.e. the parent of `src/scripts`) or an already
resolved path. -/
inductive PathArg where
  | str (s : String)
  | path (segs : List String)
deriving DecidableEq

/-- Directory of both scripts (`data_splitting.py`, `load_splits.py`). -/
def scriptDir : List String := ["src", "scripts"]

/-- `Path(__file__).parent.parent`, identical for both scripts. -/
def projectRoot : List String := scriptDir.dropLast

/-- Path resolution shared by `save_splits` and `load_data_splits`:
string arguments are resolved against the project root, and a
`split_<random_state>` component is appended when a state is given. -/
def resolveSplitsDir (arg : PathArg) (random_state : Option Int) : List String :=
  let base := match arg with
    | .str s => projectRoot ++ s.splitOn "/"
    | .path segs => segs
  match random_state with
  | some rs => base ++ ["split_" ++ toString rs]
  | none => base

/-- The file system seen by the persistence layer: newest write first. -/
abbrev SplitsFS := List (List String × PObj)

/-- Write (or overwrite) the file at `p`. -/
def fsWrite (fs : SplitsFS) (p : List String) (v : PObj) : SplitsFS :=
  (p, v) :: fs

/-- Read the file at `p`, if present. -/
def fsRead (fs : SplitsFS) (p : List String) : Option PObj :=
  (fs.find? (fun e => e.1 == p)).map (fun e => e.2)

/-- `DataSplitter.save_splits`: resolve the directory (directory creation
has no observable effect in this model) and dump each named item of the
bundle to `<name>.pkl`, in dictionary order. -/
def save_splits (fs : SplitsFS) (splits_data : List (String × PObj))
    (output_dir : PathArg) (random_state : Option Int) : SplitsFS :=
  let dir := resolveSplitsDir output_dir random_state
  splits_data.foldl (fun acc nd => fsWrite acc (dir ++ [nd.1 ++ ".pkl"]) nd.2) fs

/-- Errors raised by `load_data_splits`. -/
inductive LoadError where
  /-- `FileNotFoundError` for a missing required split file
  (the spec's `MissingSplitFileError`). -/
  | missingSplitFile (path : List String)
deriving DecidableEq

/-- The 7 files `load_data_splits` requires, in the order it checks them. -/
def requiredFiles : List String :=
  ["x_train.pkl", "x_val.pkl", "x_test.pkl",
   "y_train.pkl", "y_val.pkl", "y_test.pkl", "categorical_cols.pkl"]

/-- `load_data_splits`: resolve the directory, fail on the first missing
required file, otherwise load all seven into a keyed mapping. -/
def load_data_splits (fs : SplitsFS) (splits_path : PathArg)
    (random_state : Option Int) : Except LoadError (List (String × PObj)) :=
  let dir := resolveSplitsDir splits_path random_state
  match requiredFiles.find? (fun f => (fsRead fs (dir ++ [f])).isNone) with
  | some f => .error (.missingSplitFile (dir ++ [f]))
  | none =>
    .ok (requiredFiles.filterMap
      (fun f => (fsRead fs (dir ++ [f])).map (fun v => (f.dropRight 4, v))))

/-! ## Pool adapter (`train_model.catboost_pools`) -/

/-- A CatBoost `Pool`: features, labels, and the categorical column tags. -/
structure Pool where
  data : DataFrame
  label : Series
  cat_features : List String
deriving DecidableEq

/-- A Python runtime error surfaced by `train_model.py`. -/
inductive PyError where
  | nameError (name : String)
deriving DecidableEq

/-- The module-level names defined in `train_model.py` (its only import is
`from catboost import Pool`; no logger is imported or defined). -/
def trainModelGlobals : List String := ["Pool", "catboost_pools"]

/-- `catboost_pools`: the body's first statement reads the module global
`logger`; name resolution is modelled against `trainModelGlobals`. When the
name resolves the function only repackages its inputs into three pools. -/
def catboost_pools (x_train x_val x_test : DataFrame)
    (y_train y_val y_test : Series) (categorical_cols : List String) :
    Except PyError (Pool × Pool × Pool) :=
  if "logger" ∈ trainModelGlobals then
    .ok (⟨x_train, y_train, categorical_cols⟩,
         ⟨x_val, y_val, categorical_cols⟩,
         ⟨x_test, y_test, categorical_cols⟩)
  else
    .error (.nameError "logger")

/-! ## Stratified splitting (`DataSplitter.split_data`)

`split_data` delegates to scikit-learn's `train_test_split` with
`stratify=y, shuffle=True`, i.e. to `StratifiedShuffleSplit`. The
embedding below follows that algorithm's implementation:
sizes `n_test = ceil(test_size*n)`, `n_train = n - n_test`; per-class
train/test allocation by `_approximate_mode` (floor of the proportional
share, the leftovers going to the classes with the largest fractional
parts, ties broken in index order where numpy consults its generator —
no input evaluated in this file reaches such a tie); per-class shuffling
and final shuffling of the assembled index lists by the generator. -/

/-- A stream of permutations standing for a numpy `RandomState`:
`rng k n` is the permutation of `List.range n` produced by the `k`-th
draw. -/
abbrev RNG := Nat → Nat → List Nat

/-- A stream is valid when every draw really is a permutation of
`List.range n`. -/
def ValidRNG (rng : RNG) : Prop :=
  ∀ k n, (rng k n).Perm (List.range n)

/-- The trivial valid stream: every draw is the identity permutation. -/
def idRng : RNG := fun _ n => List.range n

/-- Modelled from the spec: the seeded numpy generator itself is external
library state ("identical seed ... must reproduce byte-identical
partitions"); it is modelled as a deterministic function of the seed that
rotates the identity permutation by a seed- and draw-dependent amount. All
splitter theorems hold for every valid stream, hence for the real one. -/
def seededRNG (seed : Nat) : RNG :=
  fun k n => (List.range n).rotate ((seed + 1) * (k + 7) % (n + 1))

/-- Apply a position list to a list (`array.take(permutation)`). -/
def applyPerm (p : List Nat) (l : List α) : List α :=
  p.filterMap (fun i => l.get? i)

/-- Insert into a `le`-sorted list. -/
def insertLe (le : α → α → Bool) (a : α) : List α → List α
  | [] => [a]
  | b :: bs => if le a b then a :: b :: bs else b :: insertLe le a bs

/-- Insertion sort by a boolean order. -/
def sortLe (le : α → α → Bool) : List α → List α :=
  List.foldr (insertLe le) []

/-- `np.unique(y)`: the distinct labels, sorted. -/
def sortedClasses (y : List Value) : List Value :=
  sortLe Value.leb y.dedup

/-- The row positions holding class `c`, in increasing order
(`np.argsort(y_indices, kind="mergesort")` restricted to one class). -/
def classIndices (y : List Value) (c : Value) : List Nat :=
  (List.range y.length).filter (fun i => y.get? i == some c)

/-- The first element of `l` with the largest key. -/
def argmaxKey (key : Nat → Nat) : List Nat → Option Nat
  | [] => none
  | a :: rest =>
    match argmaxKey key rest with
    | none => some a
    | some b => if key b > key a then some b else some a

/-- First index maximizing `fracs` among those with `floored < counts`. -/
def pickIndex (floored counts fracs : List Nat) : Option Nat :=
  argmaxKey (fun i => fracs.getD i 0)
    ((List.range counts.length).filter (fun i => floored.getD i 0 < counts.getD i 0))

/-- Hand out `need` leftover units, one at a time, each to the first
eligible class with the largest fractional part. -/
def distribute (counts fracs : List Nat) : List Nat → Nat → List Nat
  | floored, 0 => floored
  | floored, need + 1 =>
    match pickIndex floored counts fracs with
    | none => floored
    | some i => distribute counts fracs (floored.set i (floored.getD i 0 + 1)) need

/-- `sklearn.model_selection._split._approximate_mode`: distribute
`nDraws` draws over the classes proportionally to `counts`. -/
def approximateMode (counts : List Nat) (nDraws : Nat) : List Nat :=
  let total := counts.sum
  if total = 0 then counts.map (fun _ => 0)
  else
    let floored := counts.map (fun c => c * nDraws / total)
    let fracs := counts.map (fun c => c * nDraws % total)
    distribute counts fracs floored (nDraws - floored.sum)

/-- Errors raised inside `train_test_split` (all `ValueError`s of
scikit-learn, distinguished here by raise site). -/
inductive SplitError where
  /-- `test_size` outside `(0, 1)`. -/
  | invalidTestSize
  /-- The resulting train set would be empty. -/
  | emptyTrainSet
  /-- "The least populated class in y has only 1 member, which is too
  few" (the spec's `InsufficientClassMembersError`). -/
  | insufficientClassMembers
  /-- The train or test partition would be smaller than the number of
  classes. -/
  | partitionSmallerThanClasses
  /-- `KeyError`: the target column is absent from the dataset. -/
  | keyError (col : String)
deriving DecidableEq

/-- The validation checks of `_validate_shuffle_split` and
`StratifiedShuffleSplit._iter_indices`, in the order the code runs them;
`none` means all checks pass. `fracOk` is whether `test_size` lies in
`(0, 1)` and `nTest` is the precomputed `ceil(test_size * n)`. -/
def sssChecked (n nClasses nTest : Nat) (counts : List Nat) (fracOk : Bool) :
    Option SplitError :=
  if !fracOk then some .invalidTestSize
  else if n - nTest = 0 then some .emptyTrainSet
  else if counts.any (fun c => c < 2) then some .insufficientClassMembers
  else if n - nTest < nClasses ∨ nTest < nClasses then some .partitionSmallerThanClasses
  else none

/-- The per-class loop of `StratifiedShuffleSplit._iter_indices`: for each
class (paired with its train and test allocation) shuffle its row
positions and append the first `ni` to the train list, the next `ti` to
the test list. Returns the train list, the test list, and the next draw
counter. -/
def classSlices (rng : RNG) (y : List Value) :
    Nat → List (Value × Nat × Nat) → List Nat × List Nat × Nat
  | k, [] => ([], [], k)
  | k, (c, ni, ti) :: rest =>
    let idxs := classIndices y c
    let permuted := applyPerm (rng k idxs.length) idxs
    let r := classSlices rng y (k + 1) rest
    (permuted.take ni ++ r.1, (permuted.drop ni).take ti ++ r.2.1, r.2.2)

/-- The index-building part of `StratifiedShuffleSplit._iter_indices`,
run after all checks pass. -/
def buildSplit (rng : RNG) (k : Nat) (y : List Value) (classes : List Value)
    (counts : List Nat) (nTrain nTest : Nat) : (List Nat × List Nat) × Nat :=
  let ni := approximateMode counts nTrain
  let rem := counts.zipWith (fun c a => c - a) ni
  let ti := approximateMode rem nTest
  let pcs := classes.zip (ni.zip ti)
  let r := classSlices rng y k pcs
  let train := applyPerm (rng r.2.2 r.1.length) r.1
  let test := applyPerm (rng (r.2.2 + 1) r.2.1.length) r.2.1
  ((train, test), r.2.2 + 2)

/-- One stratified shuffle split (`train_test_split(..., stratify=y)`) at
the level of row positions: returns the train and test position lists and
the next draw counter. -/
def stratShuffleSplit (rng : RNG) (k : Nat) (y : List Value) (testSize : Rat) :
    Except SplitError ((List Nat × List Nat) × Nat) :=
  let n := y.length
  let nTest := (⌈testSize * (n : Rat)⌉).toNat
  let classes := sortedClasses y
  let counts := classes.map (fun c => y.count c)
  match sssChecked n classes.length nTest counts (decide (0 < testSize ∧ testSize < 1)) with
  | some e => .error e
  | none => .ok (buildSplit rng k y classes counts (n - nTest) nTest)

/-- The two-stage splitting of `DataSplitter.split_data` at the level of
row positions: first split off the test rows, then split the remainder
into train and validation with the rescaled fraction
`validation_size / (1 - test_size)`. Returns (train, val, test). -/
def splitDataIdx (rng : RNG) (k : Nat) (y : List Value) (testSize valSize : Rat) :
    Except SplitError (List Nat × List Nat × List Nat) :=
  match stratShuffleSplit rng k y testSize with
  | .error e => .error e
  | .ok ((trIdx, teIdx), k₁) =>
    let yTr := trIdx.filterMap (fun i => y.get? i)
    let vAdj := valSize / (1 - testSize)
    match stratShuffleSplit rng k₁ yTr vAdj with
    | .error e => .error e
    | .ok ((tr2, va2), _) =>
      .ok (applyPerm tr2 trIdx, applyPerm va2 trIdx, teIdx)

/-- The configuration of a `DataSplitter` instance. -/
structure DataSplitter where
  test_size : Rat
  validation_size : Rat
  random_state : Option Nat
deriving DecidableEq

/-- The six outputs of `split_data`. -/
structure SplitResult where
  x_train : DataFrame
  x_val : DataFrame
  x_test : DataFrame
  y_train : Series
  y_val : Series
  y_test : Series
deriving DecidableEq

/-- `DataSplitter.split_data` on a DataFrame: drop the target column,
split the row positions, and select the rows of each partition. -/
def split_data (rng : RNG) (sp : DataSplitter) (dataset : DataFrame)
    (target_col : String) : Except SplitError SplitResult :=
  match dataset.getCol target_col with
  | none => .error (.keyError target_col)
  | some y =>
    let x := dataset.drop target_col
    match splitDataIdx rng 0 y.values sp.test_size sp.validation_size with
    | .error e => .error e
    | .ok (trIdx, vaIdx, teIdx) =>
      .ok ⟨x.takeRows trIdx, x.takeRows vaIdx, x.takeRows teIdx,
           y.takeRows trIdx, y.takeRows vaIdx, y.takeRows teIdx⟩

/-- A run of `split_data` as the script performs it: when the instance
carries a `random_state` the generator is derived from that seed,
otherwise the ambient entropy of the process is used. -/
def split_data_run (entropy : RNG) (sp : DataSplitter) (dataset : DataFrame)
    (target_col : String) : Except SplitError SplitResult :=
  let rng := match sp.random_state with
    | some s => seededRNG s
    | none => entropy
  split_data rng sp dataset target_col


/-- The end-to-end scenario table of the spec: 1000 rows, 800 negatives
then 200 positives. -/
def y1000 : List Value :=
  List.replicate 800 (Value.vInt 0) ++ List.replicate 200 (Value.vInt 1)

/-- A 4-row table with two members of each class: the first-stage test
partition would hold a single row, fewer than the number of classes. -/
def y4ex : List Value :=
  [Value.vInt 0, Value.vInt 0, Value.vInt 1, Value.vInt 1]

/-- A 10-row table whose class 0 has only 2 members: too few to reach all
three partitions, yet accepted by every check of the splitter. -/
def y10ex : List Value :=
  [Value.vInt 0, Value.vInt 0, Value.vInt 1, Value.vInt 1, Value.vInt 1,
   Value.vInt 1, Value.vInt 1, Value.vInt 1, Value.vInt 1, Value.vInt 1]

/-- A 5-row table whose class 0 has a single member. -/
def y5ex : List Value :=
  [Value.vInt 0, Value.vInt 1, Value.vInt 1, Value.vInt 1, Value.vInt 1]

/-- A small mixed-dtype feature table used as a concrete witness input. -/
def dfW7 : DataFrame :=
  ⟨[⟨"amount", Dtype.int64, [Value.vInt 3, Value.vInt 4]⟩,
    ⟨"city", Dtype.object, [Value.vStr "a", Value.vStr "b"]⟩,
    ⟨"grp", Dtype.category, [Value.vStr "u", Value.vStr "v"]⟩,
    ⟨"label", Dtype.int64, [Value.vInt 0, Value.vInt 1]⟩]⟩

/-- A small dataset file store used as a concrete witness input. -/
def fsW : DatasetFS := [("data.csv", dfW7), ("notes.txt", dfW7)]

/-- A splitter configured like the script's default run. -/
def spW : DataSplitter := ⟨1/5, 1/5, some 1⟩


/-! ## Basic lemmas about the list-level building blocks -/

theorem filterMap_get?_range (l : List α) :
    (List.range l.length).filterMap (fun i => l.get? i) = l := by
  induction l with
  | nil => rfl
  | cons a t ih =>
    rw [List.length_cons, List.range_succ_eq_map, List.filterMap_cons, List.filterMap_map]
    have : ((fun i => (a :: t).get? i) ∘ Nat.succ) = fun i => t.get? i := rfl
    simp only [this, List.get?]
    exact congrArg (a :: ·) ih

theorem applyPerm_perm (p : List Nat) (l : List α)
    (hp : p.Perm (List.range l.length)) : (applyPerm p l).Perm l := by
  have h := hp.filterMap (fun i => l.get? i)
  rw [filterMap_get?_range] at h
  exact h

theorem applyPerm_length (p : List Nat) (l : List α)
    (hp : p.Perm (List.range l.length)) : (applyPerm p l).length = l.length :=
  (applyPerm_perm p l hp).length_eq

theorem mem_of_mem_applyPerm {p : List Nat} {l : List α} {x : α}
    (h : x ∈ applyPerm p l) : x ∈ l := by
  rcases List.mem_filterMap.mp h with ⟨i, _, hi⟩
  exact List.get?_mem hi

theorem insertLe_perm (le : α → α → Bool) (a : α) (l : List α) :
    (insertLe le a l).Perm (a :: l) := by
  induction l with
  | nil => exact List.Perm.refl _
  | cons b bs ih =>
    rw [insertLe]
    by_cases h : le a b
    · rw [if_pos h]
    · rw [if_neg h]
      exact (ih.cons b).trans (List.Perm.swap a b bs)

theorem sortLe_perm (le : α → α → Bool) (l : List α) : (sortLe le l).Perm l := by
  induction l with
  | nil => exact List.Perm.refl _
  | cons a t ih =>
    exact (insertLe_perm le a (sortLe le t)).trans (ih.cons a)

theorem sortedClasses_perm_dedup (y : List Value) :
    (sortedClasses y).Perm y.dedup := sortLe_perm _ _

theorem mem_sortedClasses {y : List Value} {v : Value} :
    v ∈ sortedClasses y ↔ v ∈ y :=
  (sortedClasses_perm_dedup y).mem_iff.trans List.mem_dedup

theorem nodup_sortedClasses (y : List Value) : (sortedClasses y).Nodup :=
  ((sortedClasses_perm_dedup y).nodup_iff).mpr (List.nodup_dedup y)

theorem mem_classIndices {y : List Value} {c : Value} {i : Nat} :
    i ∈ classIndices y c ↔ i < y.length ∧ y.get? i = some c := by
  rw [classIndices, List.mem_filter, List.mem_range]
  constructor
  · rintro ⟨h1, h2⟩
    exact ⟨h1, by simpa using h2⟩
  · rintro ⟨h1, h2⟩
    exact ⟨h1, by simpa using h2⟩

theorem countP_range_get? (y : List Value) (c : Value) :
    (List.range y.length).countP (fun i => y.get? i == some c) = y.count c := by
  induction y with
  | nil => rfl
  | cons a t ih =>
    rw [List.length_cons, List.range_succ_eq_map, List.countP_cons, List.countP_map]
    have h1 : ((fun i => (a :: t).get? i == some c) ∘ Nat.succ)
        = fun i => t.get? i == some c := rfl
    rw [h1, ih, List.count_cons]
    simp only [List.get?]
    by_cases h : a = c
    · subst h; simp
    · have hb : ((some a == some c) = false) := by
        simpa using h
      have hb2 : ((a == c) = false) := by simpa using h
      simp [hb, hb2]

theorem length_classIndices (y : List Value) (c : Value) :
    (classIndices y c).length = y.count c := by
  rw [classIndices, ← List.countP_eq_length_filter, countP_range_get?]

theorem classIndices_sub_len {y : List Value} {c : Value} :
    ∀ i ∈ classIndices y c, i < y.length := fun _ h => (mem_classIndices.mp h).1

/-- Filtering by a disjunction of predicates never both true splits into
the two filters, up to permutation. -/
theorem filter_or_perm {p q : α → Bool} {l : List α}
    (hdisj : ∀ a ∈ l, ¬(p a = true ∧ q a = true)) :
    (l.filter (fun a => p a || q a)).Perm (l.filter p ++ l.filter q) := by
  induction l with
  | nil => exact List.Perm.refl _
  | cons a t ih =>
    have iht := ih (fun x hx => hdisj x (List.mem_cons_of_mem a hx))
    have hda := hdisj a (List.mem_cons_self a t)
    cases hp : p a with
    | true =>
      have hq : q a = false := by
        cases hqv : q a
        · rfl
        · exact absurd ⟨hp, hqv⟩ hda
      simp only [List.filter_cons, hp, hq, Bool.true_or, if_true]
      simpa using iht.cons a
    | false =>
      cases hq : q a with
      | true =>
        simp only [List.filter_cons, hp, hq, Bool.false_or, if_true, if_false]
        exact (iht.cons a).trans List.perm_middle.symm
      | false =>
        simp only [List.filter_cons, hp, hq, Bool.false_or, if_false]
        exact iht

/-- The class-index lists of a duplicate-free class list that covers every
label partition the row positions. -/
theorem classIndices_flatMap_perm (y : List Value) :
    ∀ (cs : List Value), cs.Nodup → (∀ v ∈ y, v ∈ cs) →
      (cs.flatMap (classIndices y)).Perm (List.range y.length) := by
  have key : ∀ (cs : List Value), cs.Nodup →
      (cs.flatMap (classIndices y)).Perm
        ((List.range y.length).filter
          (fun i => cs.any (fun c => y.get? i == some c))) := by
    intro cs hnd
    induction cs with
    | nil => simp
    | cons c cs' ih =>
      rw [List.flatMap_cons]
      have hnd' := hnd.of_cons
      have hc : c ∉ cs' := (List.nodup_cons.mp hnd).1
      have ihp := ih hnd'
      have hsplit :
          ((List.range y.length).filter
            (fun i => (c :: cs').any (fun c' => y.get? i == some c'))).Perm
          ((List.range y.length).filter (fun i => y.get? i == some c) ++
           (List.range y.length).filter
            (fun i => cs'.any (fun c' => y.get? i == some c'))) := by
        have hshape :
            (fun i => (c :: cs').any (fun c' => y.get? i == some c'))
              = fun i => (y.get? i == some c) ||
                  cs'.any (fun c' => y.get? i == some c') := by
          funext i
          simp [List.any_cons]
        rw [hshape]
        refine filter_or_perm ?_
        rintro i - ⟨h1, h2⟩
        rcases List.any_eq_true.mp h2 with ⟨c', hc', hChz⟩
        have e1 : y.get? i = some c := by simpa using h1
        have e2 : y.get? i = some c' := by simpa using hChz
        have : c = c' := by
          have := e1.symm.trans e2
          simpa using this
        exact hc (this ▸ hc')
      exact (List.Perm.append_left (classIndices y c) ihp).trans hsplit.symm
  intro cs hnd hcov
  have h := key cs hnd
  have hfull : (List.range y.length).filter
      (fun i => cs.any (fun c => y.get? i == some c)) = List.range y.length := by
    rw [List.filter_eq_self]
    intro i hi
    have hlt := List.mem_range.mp hi
    rcases List.get?_eq_some.mpr ⟨hlt, rfl⟩ with hsome
    have hv : y.get ⟨i, hlt⟩ ∈ y := y.get_mem _ _
    exact List.any_eq_true.mpr ⟨_, hcov _ hv, by simp [hsome]⟩
  rw [hfull] at h
  exact h

/-- The per-class counts of the sorted distinct classes sum to the number
of rows. -/
theorem sum_counts_eq_length (y : List Value) :
    ((sortedClasses y).map (fun c => y.count c)).sum = y.length := by
  have hperm := classIndices_flatMap_perm y (sortedClasses y)
    (nodup_sortedClasses y) (fun v hv => mem_sortedClasses.mpr hv)
  have hlen := hperm.length_eq
  rw [List.length_flatMap, List.length_range] at hlen
  have : (List.map (List.length ∘ classIndices y) (sortedClasses y))
      = (sortedClasses y).map (fun c => y.count c) := by
    apply List.map_congr_left
    intro c _
    exact length_classIndices y c
  rw [this] at hlen
  exact hlen

/-! ## Lemmas about `approximateMode` -/

theorem sum_div_le (l : List Nat) (T : Nat) :
    (l.map (fun c => c / T)).sum ≤ l.sum / T := by
  induction l with
  | nil => simp
  | cons a t ih =>
    rw [List.map_cons, List.sum_cons, List.sum_cons]
    rcases Nat.eq_zero_or_pos T with hT | hT
    · subst hT; simp
    · have h2 : a / T + t.sum / T ≤ (a + t.sum) / T := by
        rw [Nat.le_div_iff_mul_le hT, Nat.add_mul]
        exact Nat.add_le_add (Nat.div_mul_le_self a T) (Nat.div_mul_le_self t.sum T)
      exact le_trans (Nat.add_le_add_left ih (a / T)) h2

theorem sum_le_sum_of_getD : ∀ (a b : List Nat), a.length = b.length →
    (∀ i, a.getD i 0 ≤ b.getD i 0) → a.sum ≤ b.sum := by
  intro a
  induction a with
  | nil =>
    intro b hlen _
    have : b = [] := List.eq_nil_of_length_eq_zero hlen.symm
    subst this; exact le_refl _
  | cons x t ih =>
    intro b hlen hp
    cases b with
    | nil => simp at hlen
    | cons y u =>
      rw [List.sum_cons, List.sum_cons]
      have h0 := hp 0
      simp only [List.getD] at h0
      refine Nat.add_le_add (by simpa using h0) ?_
      refine ih u (by simpa using hlen) (fun i => ?_)
      have := hp (i + 1)
      simpa using this

theorem exists_getD_lt {a b : List Nat} (hlen : a.length = b.length)
    (hsum : a.sum < b.sum) : ∃ i < b.length, a.getD i 0 < b.getD i 0 := by
  by_contra hcon
  push_neg at hcon
  have hp : ∀ i, b.getD i 0 ≤ a.getD i 0 := by
    intro i
    by_cases hi : i < b.length
    · exact hcon i hi
    · rw [List.getD_eq_default _ _ (le_of_not_lt hi)]
      exact Nat.zero_le _
  exact absurd (sum_le_sum_of_getD b a hlen.symm hp) (not_le.mpr hsum)

theorem argmaxKey_mem {key : Nat → Nat} :
    ∀ {l : List Nat} {i : Nat}, argmaxKey key l = some i → i ∈ l := by
  intro l
  induction l with
  | nil => intro i h; simp [argmaxKey] at h
  | cons a rest ih =>
    intro i h
    rw [argmaxKey] at h
    split at h
    · exact (Option.some_inj.mp h) ▸ List.mem_cons_self a rest
    · split at h
      · rename_i b heq _
        exact List.mem_cons_of_mem a (ih (heq.trans (congrArg some (Option.some_inj.mp h))))
      · exact (Option.some_inj.mp h) ▸ List.mem_cons_self a rest

theorem argmaxKey_ne_none {key : Nat → Nat} {l : List Nat} (h : l ≠ []) :
    argmaxKey key l ≠ none := by
  cases l with
  | nil => exact absurd rfl h
  | cons a rest =>
    rw [argmaxKey]
    cases argmaxKey key rest with
    | none => simp
    | some b =>
      simp only []
      split <;> simp

theorem pickIndex_spec {floored counts fracs : List Nat} {i : Nat}
    (h : pickIndex floored counts fracs = some i) :
    i < counts.length ∧ floored.getD i 0 < counts.getD i 0 := by
  have hm := argmaxKey_mem h
  have := List.mem_filter.mp hm
  exact ⟨List.mem_range.mp this.1, of_decide_eq_true this.2⟩

theorem pickIndex_isSome {floored counts fracs : List Nat}
    (h : ∃ i < counts.length, floored.getD i 0 < counts.getD i 0) :
    pickIndex floored counts fracs ≠ none := by
  rcases h with ⟨i, hi, hlt⟩
  apply argmaxKey_ne_none
  intro hnil
  have : i ∈ (List.range counts.length).filter
      (fun j => floored.getD j 0 < counts.getD j 0) := by
    rw [List.mem_filter, List.mem_range]
    exact ⟨hi, by simpa using hlt⟩
  rw [hnil] at this
  exact absurd this (List.not_mem_nil i)

theorem sum_set_succ {l : List Nat} :
    ∀ {i : Nat}, i < l.length → (l.set i (l.getD i 0 + 1)).sum = l.sum + 1 := by
  induction l with
  | nil => intro i h; simp at h
  | cons a t ih =>
    intro i h
    cases i with
    | zero =>
      simp [List.set, List.getD, Nat.add_comm, Nat.add_assoc, Nat.add_left_comm]
    | succ j =>
      have hj : j < t.length := by simpa using h
      have := ih hj
      simp only [List.set, List.sum_cons, List.getD_cons_succ, this]
      omega

theorem getD_set_self {l : List Nat} {i : Nat} {v : Nat} (h : i < l.length) :
    (l.set i v).getD i 0 = v := by
  rw [List.getD_eq_getElem?_getD, List.getElem?_set_self h]
  rfl

theorem getD_set_ne {l : List Nat} {i j : Nat} {v : Nat} (h : i ≠ j) :
    (l.set i v).getD j 0 = l.getD j 0 := by
  rw [List.getD_eq_getElem?_getD, List.getElem?_set_ne h, ← List.getD_eq_getElem?_getD]

theorem distribute_spec (counts fracs : List Nat) :
    ∀ (need : Nat) (floored : List Nat),
      floored.length = counts.length →
      (∀ i, floored.getD i 0 ≤ counts.getD i 0) →
      floored.sum + need ≤ counts.sum →
      (distribute counts fracs floored need).sum = floored.sum + need ∧
      (∀ i, (distribute counts fracs floored need).getD i 0 ≤ counts.getD i 0) ∧
      (distribute counts fracs floored need).length = counts.length := by
  intro need
  induction need with
  | zero =>
    intro floored hlen hle _
    exact ⟨by simp [distribute], fun i => hle i, by rw [distribute]; exact hlen⟩
  | succ m ih =>
    intro floored hlen hle hsum
    have hex : ∃ i < counts.length, floored.getD i 0 < counts.getD i 0 := by
      apply exists_getD_lt hlen
      omega
    rw [distribute]
    cases hpk : pickIndex floored counts fracs with
    | none => exact absurd hpk (pickIndex_isSome hex)
    | some i =>
      have ⟨hic, hilt⟩ := pickIndex_spec hpk
      have hif : i < floored.length := hlen ▸ hic
      have hlen' : (floored.set i (floored.getD i 0 + 1)).length = counts.length := by
        rw [List.length_set]; exact hlen
      have hle' : ∀ j, (floored.set i (floored.getD i 0 + 1)).getD j 0 ≤ counts.getD j 0 := by
        intro j
        by_cases hij : i = j
        · subst hij
          rw [getD_set_self hif]
          omega
        · rw [getD_set_ne hij]
          exact hle j
      have hsum' : (floored.set i (floored.getD i 0 + 1)).sum + m ≤ counts.sum := by
        rw [sum_set_succ hif]
        omega
      have := ih (floored.set i (floored.getD i 0 + 1)) hlen' hle' hsum'
      refine ⟨?_, this.2.1, this.2.2⟩
      rw [this.1, sum_set_succ hif]
      omega

theorem distribute_length (counts fracs : List Nat) :
    ∀ (need : Nat) (floored : List Nat),
      (distribute counts fracs floored need).length = floored.length := by
  intro need
  induction need with
  | zero => intro floored; rw [distribute]
  | succ m ih =>
    intro floored
    rw [distribute]
    cases pickIndex floored counts fracs with
    | none => rfl
    | some i => rw [ih]; exact List.length_set floored i _

theorem getD_map_zero (f : Nat → Nat) (hf : f 0 = 0) (l : List Nat) (i : Nat) :
    (l.map f).getD i 0 = f (l.getD i 0) := by
  by_cases hi : i < l.length
  · rw [List.getD_eq_getElem _ _ (by simpa using hi), List.getD_eq_getElem _ _ hi,
      List.getElem_map]
  · rw [List.getD_eq_default _ _ (by simpa using le_of_not_lt hi),
      List.getD_eq_default _ _ (le_of_not_lt hi), hf]

theorem approximateMode_length (counts : List Nat) (d : Nat) :
    (approximateMode counts d).length = counts.length := by
  rw [approximateMode]
  by_cases h : counts.sum = 0
  · rw [if_pos h, List.length_map]
  · rw [if_neg h, distribute_length, List.length_map]

theorem floored_getD_le {counts : List Nat} {d : Nat} (hd : d ≤ counts.sum) (i : Nat) :
    (counts.map (fun c => c * d / counts.sum)).getD i 0 ≤ counts.getD i 0 := by
  rw [getD_map_zero _ (by simp) counts i]
  rcases Nat.eq_zero_or_pos counts.sum with hT | hT
  · rw [hT]; simp
  · calc counts.getD i 0 * d / counts.sum
        ≤ counts.getD i 0 * counts.sum / counts.sum :=
          Nat.div_le_div_right (Nat.mul_le_mul_left _ hd)
      _ = counts.getD i 0 := Nat.mul_div_cancel _ hT

theorem floored_sum_le {counts : List Nat} {d : Nat} (hd : d ≤ counts.sum) :
    (counts.map (fun c => c * d / counts.sum)).sum ≤ d := by
  rcases Nat.eq_zero_or_pos counts.sum with hT | hT
  · have : d = 0 := Nat.le_zero.mp (hT ▸ hd)
    subst this
    simp
  · have h1 : counts.map (fun c => c * d / counts.sum)
        = (counts.map (fun c => c * d)).map (fun x => x / counts.sum) := by
      rw [List.map_map]; rfl
    have h2 := sum_div_le (counts.map (fun c => c * d)) counts.sum
    have h3 : (counts.map (fun c => c * d)).sum = counts.sum * d := by
      have := List.sum_map_mul_right counts (fun b => b) d
      simpa using this
    rw [h1]
    refine le_trans h2 ?_
    rw [h3, Nat.mul_div_cancel_left _ hT]

theorem approximateMode_sum {counts : List Nat} {d : Nat} (hd : d ≤ counts.sum) :
    (approximateMode counts d).sum = d := by
  rw [approximateMode]
  by_cases h : counts.sum = 0
  · rw [if_pos h]
    have hd0 : d = 0 := Nat.le_zero.mp (h ▸ hd)
    subst hd0
    simp
  · rw [if_neg h]
    have hfs := @floored_sum_le counts d hd
    have := distribute_spec counts (counts.map (fun c => c * d % counts.sum))
      (d - (counts.map (fun c => c * d / counts.sum)).sum)
      (counts.map (fun c => c * d / counts.sum))
      (List.length_map _ _) (floored_getD_le hd) (by omega)
    rw [this.1]
    omega

theorem approximateMode_getD_le {counts : List Nat} {d : Nat} (hd : d ≤ counts.sum)
    (i : Nat) : (approximateMode counts d).getD i 0 ≤ counts.getD i 0 := by
  rw [approximateMode]
  by_cases h : counts.sum = 0
  · rw [if_pos h, getD_map_zero _ rfl]
    exact Nat.zero_le _
  · rw [if_neg h]
    have := distribute_spec counts (counts.map (fun c => c * d % counts.sum))
      (d - (counts.map (fun c => c * d / counts.sum)).sum)
      (counts.map (fun c => c * d / counts.sum))
      (List.length_map _ _) (floored_getD_le hd)
      (by have := @floored_sum_le counts d hd; omega)
    exact this.2.1 i

theorem approximateMode_self (l : List Nat) : approximateMode l l.sum = l := by
  rw [approximateMode]
  by_cases h : l.sum = 0
  · rw [if_pos h]
    have hz := List.sum_eq_zero_iff.mp h
    calc l.map (fun _ => 0) = l.map id := List.map_congr_left (fun x hx => (hz x hx).symm)
      _ = l := List.map_id l
  · rw [if_neg h]
    have hT : 0 < l.sum := Nat.pos_of_ne_zero h
    have hfl : l.map (fun c => c * l.sum / l.sum) = l := by
      calc l.map (fun c => c * l.sum / l.sum)
          = l.map id := List.map_congr_left (fun x _ => Nat.mul_div_cancel x hT)
        _ = l := List.map_id l
    rw [hfl]
    show distribute l (l.map (fun c => c * l.sum % l.sum)) l (l.sum - l.sum) = l
    rw [Nat.sub_self, distribute]

/-! ## Lemmas about the per-class slicing loop -/

theorem perm_append_swap {α} [DecidableEq α] (a b c d : List α) :
    ((a ++ b) ++ (c ++ d)).Perm ((a ++ c) ++ (b ++ d)) := by
  refine List.perm_iff_count.mpr (fun x => ?_)
  simp only [List.count_append]
  omega

theorem take_add_drop_take {l : List Nat} {ni ti : Nat} (h : ni + ti = l.length) :
    l.take ni ++ (l.drop ni).take ti = l := by
  rw [← List.take_add, h, List.take_length]

theorem classSlices_append_perm {rng : RNG} {y : List Value} (hv : ValidRNG rng) :
    ∀ (pcs : List (Value × Nat × Nat)) (k : Nat),
      (∀ x ∈ pcs, x.2.1 + x.2.2 = (classIndices y x.1).length) →
      ((classSlices rng y k pcs).1 ++ (classSlices rng y k pcs).2.1).Perm
        (pcs.flatMap (fun x => classIndices y x.1)) := by
  intro pcs
  induction pcs with
  | nil => intro k _; simp [classSlices]
  | cons hd rest ih =>
    intro k hall
    obtain ⟨c, ni, ti⟩ := hd
    have hh := hall _ (List.mem_cons_self _ rest)
    simp only at hh
    rw [classSlices, List.flatMap_cons]
    set idxs := classIndices y c with hidxs
    have hperm : (applyPerm (rng k idxs.length) idxs).Perm idxs :=
      applyPerm_perm _ _ (hv k idxs.length)
    have hlen : (applyPerm (rng k idxs.length) idxs).length = idxs.length :=
      hperm.length_eq
    have hAB : (applyPerm (rng k idxs.length) idxs).take ni ++
        ((applyPerm (rng k idxs.length) idxs).drop ni).take ti
        = applyPerm (rng k idxs.length) idxs :=
      take_add_drop_take (by rw [hlen]; exact hh)
    have iht := ih (k + 1) (fun x hx => hall x (List.mem_cons_of_mem _ hx))
    refine (perm_append_swap _ _ _ _).trans ?_
    rw [hAB]
    exact List.Perm.append (hperm.trans (List.Perm.refl idxs)) iht

theorem classSlices_lengths {rng : RNG} {y : List Value} (hv : ValidRNG rng) :
    ∀ (pcs : List (Value × Nat × Nat)) (k : Nat),
      (∀ x ∈ pcs, x.2.1 + x.2.2 = (classIndices y x.1).length) →
      (classSlices rng y k pcs).1.length = (pcs.map (fun x => x.2.1)).sum ∧
      (classSlices rng y k pcs).2.1.length = (pcs.map (fun x => x.2.2)).sum := by
  intro pcs
  induction pcs with
  | nil => intro k _; simp [classSlices]
  | cons hd rest ih =>
    intro k hall
    obtain ⟨c, ni, ti⟩ := hd
    have hh := hall _ (List.mem_cons_self _ rest)
    simp only at hh
    rw [classSlices]
    set idxs := classIndices y c with hidxs
    have hlen : (applyPerm (rng k idxs.length) idxs).length = idxs.length :=
      (applyPerm_perm _ _ (hv k idxs.length)).length_eq
    have iht := ih (k + 1) (fun x hx => hall x (List.mem_cons_of_mem _ hx))
    constructor
    · rw [List.length_append, List.length_take, hlen, iht.1]
      simp only [List.map_cons, List.sum_cons]
      omega
    · rw [List.length_append, List.length_take, List.length_drop, hlen, iht.2]
      simp only [List.map_cons, List.sum_cons]
      omega

theorem classSlices_countP_zero {rng : RNG} {y : List Value} {c : Value} :
    ∀ (pcs : List (Value × Nat × Nat)) (k : Nat),
      (∀ x ∈ pcs, x.1 ≠ c) →
      (classSlices rng y k pcs).1.countP (fun i => y.get? i == some c) = 0 ∧
      (classSlices rng y k pcs).2.1.countP (fun i => y.get? i == some c) = 0 := by
  intro pcs
  induction pcs with
  | nil => intro k _; simp [classSlices]
  | cons hd rest ih =>
    intro k hall
    obtain ⟨c', ni, ti⟩ := hd
    have hne : c' ≠ c := hall _ (List.mem_cons_self _ rest)
    have iht := ih (k + 1) (fun x hx => hall x (List.mem_cons_of_mem _ hx))
    rw [classSlices]
    have hmemz : ∀ i ∈ applyPerm (rng k (classIndices y c').length) (classIndices y c'),
        ¬(y.get? i == some c) = true := by
      intro i hi
      have := (mem_classIndices.mp (mem_of_mem_applyPerm hi)).2
      simp only [beq_iff_eq, this, Option.some_inj]
      exact fun hcc => hne hcc
    constructor
    · rw [List.countP_append, iht.1]
      have : ((applyPerm (rng k (classIndices y c').length) (classIndices y c')).take
          ni).countP (fun i => y.get? i == some c) = 0 :=
        List.countP_eq_zero.mpr (fun i hi => hmemz i (List.mem_of_mem_take hi))
      omega
    · rw [List.countP_append, iht.2]
      have : (((applyPerm (rng k (classIndices y c').length) (classIndices y c')).drop
          ni).take ti).countP (fun i => y.get? i == some c) = 0 :=
        List.countP_eq_zero.mpr
          (fun i hi => hmemz i (List.mem_of_mem_drop (List.mem_of_mem_take hi)))
      omega

theorem classSlices_countP {rng : RNG} {y : List Value} (hv : ValidRNG rng) :
    ∀ (pcs : List (Value × Nat × Nat)) (k : Nat),
      (∀ x ∈ pcs, x.2.1 + x.2.2 = (classIndices y x.1).length) →
      (pcs.map (fun x => x.1)).Nodup →
      ∀ x ∈ pcs,
        (classSlices rng y k pcs).1.countP (fun i => y.get? i == some x.1) = x.2.1 ∧
        (classSlices rng y k pcs).2.1.countP (fun i => y.get? i == some x.1) = x.2.2 := by
  intro pcs
  induction pcs with
  | nil => intro k _ _ x hx; exact absurd hx (List.not_mem_nil x)
  | cons hd rest ih =>
    intro k hall hnd x hx
    obtain ⟨c', ni, ti⟩ := hd
    have hh := hall _ (List.mem_cons_self _ rest)
    simp only at hh
    have hndr : (rest.map (fun x => x.1)).Nodup := (List.nodup_cons.mp (by simpa using hnd)).2
    have hcnotin : c' ∉ rest.map (fun x => x.1) := (List.nodup_cons.mp (by simpa using hnd)).1
    rw [classSlices]
    set idxs := classIndices y c' with hidxs
    have hlen : (applyPerm (rng k idxs.length) idxs).length = idxs.length :=
      (applyPerm_perm _ _ (hv k idxs.length)).length_eq
    have hmemc : ∀ i ∈ applyPerm (rng k idxs.length) idxs,
        (y.get? i == some c') = true := by
      intro i hi
      have h := (mem_classIndices.mp (mem_of_mem_applyPerm hi)).2
      simp only [beq_iff_eq]
      exact h
    rcases List.mem_cons.mp hx with hx1 | hx2
    · subst hx1
      simp only
      constructor
      · rw [List.countP_append]
        have h1 : ((applyPerm (rng k idxs.length) idxs).take ni).countP
            (fun i => y.get? i == some c') = ni := by
          have hall1 : ∀ i ∈ (applyPerm (rng k idxs.length) idxs).take ni,
              (y.get? i == some c') = true :=
            fun i hi => hmemc i (List.mem_of_mem_take hi)
          rw [List.countP_eq_length.mpr hall1, List.length_take, hlen]
          omega
        have h2 := (@classSlices_countP_zero rng y c' rest (k+1)
          (fun z hz => by
            intro heq
            exact hcnotin (heq ▸ List.mem_map_of_mem (fun w => w.1) hz))).1
        omega
      · rw [List.countP_append]
        have h1 : (((applyPerm (rng k idxs.length) idxs).drop ni).take ti).countP
            (fun i => y.get? i == some c') = ti := by
          have hall1 : ∀ i ∈ ((applyPerm (rng k idxs.length) idxs).drop ni).take ti,
              (y.get? i == some c') = true :=
            fun i hi => hmemc i (List.mem_of_mem_drop (List.mem_of_mem_take hi))
          rw [List.countP_eq_length.mpr hall1, List.length_take, List.length_drop, hlen]
          omega
        have h2 := (@classSlices_countP_zero rng y c' rest (k+1)
          (fun z hz => by
            intro heq
            exact hcnotin (heq ▸ List.mem_map_of_mem (fun w => w.1) hz))).2
        omega
    · have hxc : x.1 ≠ c' := by
        intro hxc
        exact hcnotin (hxc ▸ List.mem_map_of_mem (fun w => w.1) hx2)
      have iht := ih (k + 1) (fun z hz => hall z (List.mem_cons_of_mem _ hz)) hndr x hx2
      have hz1 : ((applyPerm (rng k idxs.length) idxs).take ni).countP
          (fun i => y.get? i == some x.1) = 0 :=
        List.countP_eq_zero.mpr (fun i hi => by
          have := (mem_classIndices.mp (mem_of_mem_applyPerm (List.mem_of_mem_take hi))).2
          simp only [beq_iff_eq, this, Option.some_inj]
          exact fun hcc => hxc hcc.symm)
      have hz2 : (((applyPerm (rng k idxs.length) idxs).drop ni).take ti).countP
          (fun i => y.get? i == some x.1) = 0 :=
        List.countP_eq_zero.mpr (fun i hi => by
          have := (mem_classIndices.mp
            (mem_of_mem_applyPerm (List.mem_of_mem_drop (List.mem_of_mem_take hi)))).2
          simp only [beq_iff_eq, this, Option.some_inj]
          exact fun hcc => hxc hcc.symm)
      constructor
      · rw [List.countP_append, hz1, iht.1]; omega
      · rw [List.countP_append, hz2, iht.2]; omega

/-! ## The specification of one stratified shuffle split -/

theorem sum_zipWith_sub : ∀ (a b : List Nat), a.length = b.length →
    (∀ i, b.getD i 0 ≤ a.getD i 0) →
    (List.zipWith (fun c x => c - x) a b).sum + b.sum = a.sum := by
  intro a
  induction a with
  | nil =>
    intro b hlen _
    have : b = [] := List.eq_nil_of_length_eq_zero hlen.symm
    subst this
    rfl
  | cons x t ih =>
    intro b hlen hp
    cases b with
    | nil => simp at hlen
    | cons z u =>
      have h0 := hp 0
      simp only [List.getD] at h0
      have hrec := ih u (by simpa using hlen) (fun i => by
        have := hp (i + 1)
        simpa using this)
      rw [List.zipWith_cons_cons, List.sum_cons, List.sum_cons, List.sum_cons]
      have hz : z ≤ x := by simpa using h0
      omega

theorem getD_zipWith_sub (a b : List Nat) (j : Nat) (hlen : a.length = b.length) :
    (List.zipWith (fun c x => c - x) a b).getD j 0 = a.getD j 0 - b.getD j 0 := by
  by_cases hj : j < a.length
  · have hjz : j < (List.zipWith (fun c x => c - x) a b).length := by
      rw [List.length_zipWith]
      omega
    rw [List.getD_eq_getElem _ _ hjz, List.getD_eq_getElem _ _ hj,
      List.getD_eq_getElem _ _ (hlen ▸ hj), List.getElem_zipWith]
  · have h1 : (List.zipWith (fun c x => c - x) a b).length ≤ j := by
      rw [List.length_zipWith]
      omega
    rw [List.getD_eq_default _ _ h1, List.getD_eq_default _ _ (le_of_not_lt hj),
      List.getD_eq_default _ _ (by omega : b.length ≤ j)]

/-- The full behaviour of `buildSplit` at the arguments `stratShuffleSplit`
passes it, when the test size is a proper fraction of the rows: the train
and test positions together permute the row range, their lengths are the
requested sizes, and the per-class counts follow the `approximateMode`
allocation. -/
theorem buildSplit_spec {rng : RNG} (hv : ValidRNG rng) (y : List Value) (k : Nat)
    {nTest : Nat} (hlt : nTest < y.length) :
    (((buildSplit rng k y (sortedClasses y)
        ((sortedClasses y).map (fun c => y.count c)) (y.length - nTest) nTest).1.1 ++
      (buildSplit rng k y (sortedClasses y)
        ((sortedClasses y).map (fun c => y.count c)) (y.length - nTest) nTest).1.2).Perm
      (List.range y.length)) ∧
    (buildSplit rng k y (sortedClasses y)
        ((sortedClasses y).map (fun c => y.count c)) (y.length - nTest) nTest).1.1.length
      = y.length - nTest ∧
    (buildSplit rng k y (sortedClasses y)
        ((sortedClasses y).map (fun c => y.count c)) (y.length - nTest) nTest).1.2.length
      = nTest ∧
    (∀ j, j < (sortedClasses y).length →
      (buildSplit rng k y (sortedClasses y)
          ((sortedClasses y).map (fun c => y.count c)) (y.length - nTest) nTest).1.1.countP
          (fun i => y.get? i == some ((sortedClasses y).getD j (Value.vInt 0)))
        = (approximateMode ((sortedClasses y).map (fun c => y.count c))
            (y.length - nTest)).getD j 0 ∧
      (buildSplit rng k y (sortedClasses y)
          ((sortedClasses y).map (fun c => y.count c)) (y.length - nTest) nTest).1.2.countP
          (fun i => y.get? i == some ((sortedClasses y).getD j (Value.vInt 0)))
        = ((sortedClasses y).map (fun c => y.count c)).getD j 0 -
          (approximateMode ((sortedClasses y).map (fun c => y.count c))
            (y.length - nTest)).getD j 0) := by
  set classes := sortedClasses y with hclasses
  set counts := classes.map (fun c => y.count c) with hcounts
  set nTrain := y.length - nTest with hnTrain
  have hsum : counts.sum = y.length := sum_counts_eq_length y
  have hTrainLe : nTrain ≤ counts.sum := by omega
  set ni := approximateMode counts nTrain with hni
  have hniLen : ni.length = counts.length := approximateMode_length counts nTrain
  have hniSum : ni.sum = nTrain := approximateMode_sum hTrainLe
  have hniLe : ∀ i, ni.getD i 0 ≤ counts.getD i 0 :=
    approximateMode_getD_le hTrainLe
  set rem := counts.zipWith (fun c a => c - a) ni with hrem
  have hremLen : rem.length = counts.length := by
    rw [hrem, List.length_zipWith, hniLen]
    exact Nat.min_self _
  have hremSum : rem.sum = nTest := by
    have := sum_zipWith_sub counts ni hniLen.symm hniLe
    rw [hrem]
    omega
  have hti : approximateMode rem nTest = rem := by
    rw [← hremSum]
    exact approximateMode_self rem
  have hremGetD : ∀ j, rem.getD j 0 = counts.getD j 0 - ni.getD j 0 :=
    fun j => getD_zipWith_sub counts ni j hniLen.symm
  have hcountsLen : counts.length = classes.length := by
    rw [hcounts, List.length_map]
  have hziplen : (ni.zip rem).length = classes.length := by
    rw [List.length_zip, hniLen, hremLen, hcountsLen]
    exact Nat.min_self _
  have hfst : (classes.zip (ni.zip rem)).map (fun x => x.1) = classes :=
    List.map_fst_zip classes (ni.zip rem) (by rw [hziplen])
  have hcountsGetD : ∀ j, j < classes.length →
      counts.getD j 0 = (classIndices y (classes.getD j (Value.vInt 0))).length := by
    intro j hj
    rw [List.getD_eq_getElem _ _ (hcountsLen ▸ hj), List.getD_eq_getElem _ _ hj]
    simp only [hcounts, List.getElem_map]
    exact (length_classIndices _ _).symm
  have hall : ∀ x ∈ classes.zip (ni.zip rem),
      x.2.1 + x.2.2 = (classIndices y x.1).length := by
    intro x hx
    rcases List.getElem_of_mem hx with ⟨j, hj, hje⟩
    have hjc : j < classes.length := by
      rw [List.length_zip, hziplen] at hj
      omega
    have hjn : j < ni.length := by rw [hniLen, hcountsLen]; exact hjc
    have hjr : j < rem.length := by rw [hremLen, hcountsLen]; exact hjc
    have hx1 : x.1 = classes[j] := by rw [← hje, List.getElem_zip]
    have hx21 : x.2.1 = ni[j] := by rw [← hje, List.getElem_zip, List.getElem_zip]
    have hx22 : x.2.2 = rem[j] := by rw [← hje, List.getElem_zip, List.getElem_zip]
    have hclsD : classes.getD j (Value.vInt 0) = classes[j] := List.getD_eq_getElem _ _ hjc
    have h1 : ni[j] + rem[j] = counts.getD j 0 := by
      have e1 : ni[j] = ni.getD j 0 := (List.getD_eq_getElem _ _ hjn).symm
      have e2 : rem[j] = rem.getD j 0 := (List.getD_eq_getElem _ _ hjr).symm
      rw [e1, e2, hremGetD j]
      have := hniLe j
      omega
    rw [hx1, hx21, hx22, h1, ← hclsD]
    exact hcountsGetD j hjc
  have hnd : ((classes.zip (ni.zip rem)).map (fun x => x.1)).Nodup := by
    rw [hfst]
    exact nodup_sortedClasses y
  have hflat : ((classes.zip (ni.zip rem)).flatMap (fun x => classIndices y x.1)).Perm
      (List.range y.length) := by
    have h1 : ((classes.zip (ni.zip rem)).map (fun x => x.1)).flatMap (classIndices y)
        = (classes.zip (ni.zip rem)).flatMap (fun x => classIndices y x.1) :=
      List.flatMap_map _ _ _
    rw [← h1, hfst]
    exact classIndices_flatMap_perm y classes (nodup_sortedClasses y)
      (fun v hv' => mem_sortedClasses.mpr hv')
  -- unpack buildSplit
  rw [buildSplit]
  simp only [← hni, hti]
  set pcs := classes.zip (ni.zip rem) with hpcs
  set cs := classSlices rng y k pcs with hcs
  have hcsPerm := classSlices_append_perm hv pcs k hall
  have hcsLens := classSlices_lengths hv pcs k hall
  have hcsCount := classSlices_countP hv pcs k hall hnd
  have hsndzip : pcs.map (fun x => x.2) = ni.zip rem :=
    List.map_snd_zip classes (ni.zip rem) (by rw [hziplen])
  have hmapni : pcs.map (fun x => x.2.1) = ni := by
    calc pcs.map (fun x => x.2.1)
        = (pcs.map (fun x => x.2)).map (fun x => x.1) := by
          rw [List.map_map]
          rfl
      _ = (ni.zip rem).map (fun x => x.1) := by rw [hsndzip]
      _ = ni := List.map_fst_zip ni rem (by rw [hniLen, hremLen])
  have hmaprem : pcs.map (fun x => x.2.2) = rem := by
    calc pcs.map (fun x => x.2.2)
        = (pcs.map (fun x => x.2)).map (fun x => x.2) := by
          rw [List.map_map]
          rfl
      _ = (ni.zip rem).map (fun x => x.2) := by rw [hsndzip]
      _ = rem := List.map_snd_zip ni rem (by rw [hniLen, hremLen])
  have hTrainLen : cs.1.length = nTrain := by
    rw [hcsLens.1, hmapni, hniSum]
  have hTestLen : cs.2.1.length = nTest := by
    rw [hcsLens.2, hmaprem, hremSum]
  have hShufTrain : (applyPerm (rng cs.2.2 cs.1.length) cs.1).Perm cs.1 :=
    applyPerm_perm _ _ (hv cs.2.2 cs.1.length)
  have hShufTest : (applyPerm (rng (cs.2.2 + 1) cs.2.1.length) cs.2.1).Perm cs.2.1 :=
    applyPerm_perm _ _ (hv (cs.2.2 + 1) cs.2.1.length)
  refine ⟨?_, ?_, ?_, ?_⟩
  · exact ((hShufTrain.append hShufTest).trans hcsPerm).trans hflat
  · rw [hShufTrain.length_eq, hTrainLen]
  · rw [hShufTest.length_eq, hTestLen]
  · intro j hj
    have hjpcs : j < pcs.length := by
      rw [hpcs, List.length_zip, hziplen]
      omega
    have hmem : pcs[j] ∈ pcs := List.getElem_mem hjpcs
    have hje : pcs[j] = (classes[j], ni[j], rem[j]) := by
      simp only [hpcs, List.getElem_zip]
    have hcnt := hcsCount pcs[j] hmem
    rw [hje] at hcnt
    simp only at hcnt
    have hclsD : classes.getD j (Value.vInt 0) = classes[j] := List.getD_eq_getElem _ _ hj
    have hniD : ni.getD j 0 = ni[j] :=
      List.getD_eq_getElem _ _ (by rw [hniLen, hcountsLen]; exact hj)
    have hremD : rem.getD j 0 = rem[j] :=
      List.getD_eq_getElem _ _ (by rw [hremLen, hcountsLen]; exact hj)
    constructor
    · rw [hShufTrain.countP_eq, hclsD, hcnt.1, hniD]
    · rw [hShufTest.countP_eq, hclsD, hcnt.2, ← hremD, hremGetD j]

theorem sssChecked_none_facts {n nc nTest : Nat} {counts : List Nat} {b : Bool}
    (h : sssChecked n nc nTest counts b = none) :
    b = true ∧ n - nTest ≠ 0 ∧ counts.any (fun c => c < 2) = false ∧
      ¬(n - nTest < nc ∨ nTest < nc) := by
  rw [sssChecked] at h
  split_ifs at h with h1 h2 h3 h4
  refine ⟨?_, h2, ?_, h4⟩
  · cases b
    · exact absurd rfl h1
    · rfl
  · cases hany : counts.any (fun c => c < 2)
    · rfl
    · exact absurd hany h3

theorem stratShuffleSplit_ok_elim {rng : RNG} {k : Nat} {y : List Value} {ts : Rat}
    {tr te : List Nat} {k' : Nat}
    (h : stratShuffleSplit rng k y ts = .ok ((tr, te), k')) :
    sssChecked y.length (sortedClasses y).length ((⌈ts * (y.length : Rat)⌉).toNat)
      ((sortedClasses y).map (fun c => y.count c)) (decide (0 < ts ∧ ts < 1)) = none ∧
    buildSplit rng k y (sortedClasses y) ((sortedClasses y).map (fun c => y.count c))
      (y.length - (⌈ts * (y.length : Rat)⌉).toNat) ((⌈ts * (y.length : Rat)⌉).toNat)
      = ((tr, te), k') := by
  simp only [stratShuffleSplit] at h
  split at h
  · exact absurd h (by simp)
  · rename_i heq
    exact ⟨heq, by injection h⟩

/-- Everything claim-relevant about one successful stratified shuffle
split: the train and test positions partition the row range, their
lengths are `n - ceil(t*n)` and `ceil(t*n)`, and the per-class counts are
the `approximateMode` allocation and its complement. -/
theorem stratShuffleSplit_ok_spec {rng : RNG} {k : Nat} {y : List Value} {ts : Rat}
    {tr te : List Nat} {k' : Nat} (hv : ValidRNG rng)
    (h : stratShuffleSplit rng k y ts = .ok ((tr, te), k')) :
    (tr ++ te).Perm (List.range y.length) ∧
    tr.length = y.length - (⌈ts * (y.length : Rat)⌉).toNat ∧
    te.length = (⌈ts * (y.length : Rat)⌉).toNat ∧
    (∀ j, j < (sortedClasses y).length →
      tr.countP (fun i => y.get? i == some ((sortedClasses y).getD j (Value.vInt 0)))
        = (approximateMode ((sortedClasses y).map (fun c => y.count c))
            (y.length - (⌈ts * (y.length : Rat)⌉).toNat)).getD j 0 ∧
      te.countP (fun i => y.get? i == some ((sortedClasses y).getD j (Value.vInt 0)))
        = ((sortedClasses y).map (fun c => y.count c)).getD j 0 -
          (approximateMode ((sortedClasses y).map (fun c => y.count c))
            (y.length - (⌈ts * (y.length : Rat)⌉).toNat)).getD j 0) := by
  obtain ⟨hchk, hbs⟩ := stratShuffleSplit_ok_elim h
  obtain ⟨-, hne, -, -⟩ := sssChecked_none_facts hchk
  have hlt : (⌈ts * (y.length : Rat)⌉).toNat < y.length := by omega
  have hspec := buildSplit_spec hv y k hlt
  rw [hbs] at hspec
  exact ⟨hspec.1, hspec.2.1, hspec.2.2.1, hspec.2.2.2⟩

theorem length_filterMap_get? {α : Type} {l : List α} :
    ∀ {p : List Nat}, (∀ i ∈ p, i < l.length) →
      (p.filterMap (fun i => l.get? i)).length = p.length := by
  intro p
  induction p with
  | nil => intro _; rfl
  | cons i t ih =>
    intro hp
    have hi : i < l.length := hp i (List.mem_cons_self i t)
    have hsome : l.get? i = some (l.get ⟨i, hi⟩) :=
      List.get?_eq_some.mpr ⟨hi, rfl⟩
    rw [List.filterMap_cons, hsome]
    simp only [List.length_cons]
    rw [ih (fun j hj => hp j (List.mem_cons_of_mem i hj))]

theorem splitDataIdx_ok_parts {rng : RNG} {k : Nat} {y : List Value} {ts vs : Rat}
    {tr va te : List Nat}
    (h : splitDataIdx rng k y ts vs = .ok (tr, va, te)) :
    ∃ tr1 te1 k1 tr2 va2 k2,
      stratShuffleSplit rng k y ts = .ok ((tr1, te1), k1) ∧
      stratShuffleSplit rng k1 (tr1.filterMap (fun i => y.get? i)) (vs / (1 - ts))
        = .ok ((tr2, va2), k2) ∧
      tr = applyPerm tr2 tr1 ∧ va = applyPerm va2 tr1 ∧ te = te1 := by
  rw [splitDataIdx] at h
  cases h1 : stratShuffleSplit rng k y ts with
  | error e =>
    rw [h1] at h
    exact absurd h (by simp)
  | ok res =>
    obtain ⟨⟨tr1, te1⟩, k1⟩ := res
    rw [h1] at h
    simp only [] at h
    cases h2 : stratShuffleSplit rng k1 (tr1.filterMap (fun i => y.get? i))
        (vs / (1 - ts)) with
    | error e =>
      rw [h2] at h
      exact absurd h (by simp)
    | ok res2 =>
      obtain ⟨⟨tr2, va2⟩, k2⟩ := res2
      rw [h2] at h
      simp only [Except.ok.injEq, Prod.mk.injEq] at h
      exact ⟨tr1, te1, k1, tr2, va2, k2, rfl, h2, h.1.symm, h.2.1.symm, h.2.2.symm⟩

/-- A successful two-stage split assigns every row position to exactly one
of train, validation, test: their concatenation permutes the row range. -/
theorem splitDataIdx_partition {rng : RNG} {k : Nat} {y : List Value} {ts vs : Rat}
    {tr va te : List Nat} (hv : ValidRNG rng)
    (h : splitDataIdx rng k y ts vs = .ok (tr, va, te)) :
    (tr ++ (va ++ te)).Perm (List.range y.length) := by
  obtain ⟨tr1, te1, k1, tr2, va2, k2, h1, h2, htr, hva, hte⟩ := splitDataIdx_ok_parts h
  have hs1 := stratShuffleSplit_ok_spec hv h1
  have hs2 := stratShuffleSplit_ok_spec hv h2
  have hrange1 : ∀ i ∈ tr1, i < y.length := by
    intro i hi
    have : i ∈ List.range y.length := hs1.1.mem_iff.mp (List.mem_append_left te1 hi)
    exact List.mem_range.mp this
  have hyTrLen : (tr1.filterMap (fun i => y.get? i)).length = tr1.length :=
    length_filterMap_get? hrange1
  have hstage2 : (tr2 ++ va2).Perm (List.range tr1.length) := by
    have := hs2.1
    rw [hyTrLen] at this
    exact this
  have happ : applyPerm tr2 tr1 ++ applyPerm va2 tr1 = applyPerm (tr2 ++ va2) tr1 :=
    (List.filterMap_append tr2 va2 (fun i => tr1.get? i)).symm
  have htrva : (tr ++ va).Perm tr1 := by
    rw [htr, hva, happ]
    exact applyPerm_perm _ _ hstage2
  rw [← List.append_assoc, hte]
  exact (htrva.append_right te1).trans hs1.1

/-- When the fraction checks pass but some class has fewer than 2 members,
the first-stage split raises the stratification error. -/
theorem stratShuffleSplit_insufficient {rng : RNG} {k : Nat} {y : List Value} {ts : Rat}
    (hts : 0 < ts ∧ ts < 1)
    (hlt : (⌈ts * (y.length : Rat)⌉).toNat < y.length)
    (hc : ∃ v ∈ y, y.count v < 2) :
    stratShuffleSplit rng k y ts = .error .insufficientClassMembers := by
  have hb : decide (0 < ts ∧ ts < 1) = true := decide_eq_true hts
  have hany : ((sortedClasses y).map (fun c => y.count c)).any (fun c => c < 2) = true := by
    rcases hc with ⟨v, hv, hcnt⟩
    exact List.any_eq_true.mpr
      ⟨y.count v, List.mem_map_of_mem _ (mem_sortedClasses.mpr hv), by simpa using hcnt⟩
  have hchk : sssChecked y.length (sortedClasses y).length
      ((⌈ts * (y.length : Rat)⌉).toNat) ((sortedClasses y).map (fun c => y.count c))
      (decide (0 < ts ∧ ts < 1)) = some .insufficientClassMembers := by
    rw [sssChecked, hb]
    rw [if_neg (by simp)]
    rw [if_neg (by omega : ¬(y.length - (⌈ts * (y.length : Rat)⌉).toNat = 0))]
    rw [if_pos hany]
  simp only [stratShuffleSplit]
  rw [hchk]

theorem splitDataIdx_insufficient {rng : RNG} {k : Nat} {y : List Value} {ts vs : Rat}
    (hts : 0 < ts ∧ ts < 1)
    (hlt : (⌈ts * (y.length : Rat)⌉).toNat < y.length)
    (hc : ∃ v ∈ y, y.count v < 2) :
    splitDataIdx rng k y ts vs = .error .insufficientClassMembers := by
  rw [splitDataIdx, stratShuffleSplit_insufficient hts hlt hc]

/-! ## Composing the two stages: labels and counts seen by stage two -/

theorem get?_filterMap_get? {α : Type} {l : List α} :
    ∀ {p : List Nat}, (∀ i ∈ p, i < l.length) → ∀ i,
      (p.filterMap (fun j => l.get? j)).get? i = (p.get? i).bind (fun j => l.get? j) := by
  intro p
  induction p with
  | nil => intro _ i; cases i <;> rfl
  | cons a t ih =>
    intro hp i
    have ha : a < l.length := hp a (List.mem_cons_self a t)
    have hsome : l.get? a = some (l.get ⟨a, ha⟩) := List.get?_eq_some.mpr ⟨ha, rfl⟩
    rw [List.filterMap_cons, hsome]
    cases i with
    | zero => simp [hsome]
    | succ j =>
      simp only [List.get?]
      exact ih (fun x hx => hp x (List.mem_cons_of_mem a hx)) j

theorem countP_filterMap (q : β → Bool) (f : α → Option β) (l : List α) :
    (l.filterMap f).countP q = l.countP (fun a => ((f a).map q).getD false) := by
  induction l with
  | nil => rfl
  | cons a t ih =>
    rw [List.filterMap_cons, List.countP_cons]
    cases hfa : f a with
    | none => simp [hfa, ih]
    | some b =>
      rw [List.countP_cons, ih]
      simp [hfa]

/-- Counting a class among rows selected through a position list equals
counting it in the restricted label list. -/
theorem countP_applyPerm_eq {y : List Value} {tr1 p2 : List Nat} {c : Value}
    (hrange : ∀ j ∈ tr1, j < y.length) (hp2 : ∀ i ∈ p2, i < tr1.length) :
    (applyPerm p2 tr1).countP (fun i => y.get? i == some c)
      = p2.countP (fun i => (tr1.filterMap (fun j => y.get? j)).get? i == some c) := by
  rw [applyPerm, countP_filterMap]
  refine List.countP_congr (fun i hi => ?_)
  have hilt : i < tr1.length := hp2 i hi
  have hsome : tr1.get? i = some (tr1.get ⟨i, hilt⟩) := List.get?_eq_some.mpr ⟨hilt, rfl⟩
  have hy : (tr1.filterMap (fun j => y.get? j)).get? i = y.get? (tr1.get ⟨i, hilt⟩) := by
    rw [get?_filterMap_get? hrange i, hsome]
    rfl
  rw [hsome, hy]
  simp

/-- The class count of the restricted label list equals the class count of
the selecting positions in the original labels. -/
theorem count_filterMap_get? {y : List Value} {tr1 : List Nat} {c : Value}
    (hrange : ∀ j ∈ tr1, j < y.length) :
    (tr1.filterMap (fun j => y.get? j)).count c
      = tr1.countP (fun j => y.get? j == some c) := by
  rw [List.count_eq_countP, countP_filterMap]
  refine List.countP_congr (fun j hj => ?_)
  have hjl : j < y.length := hrange j hj
  have hsome : y.get? j = some (y.get ⟨j, hjl⟩) := List.get?_eq_some.mpr ⟨hjl, rfl⟩
  rw [hsome]
  simp

/-! ## Identifying a two-class label list -/

theorem nodup_two_mem {l : List Value} {a b : Value} (hnd : l.Nodup) (hab : a ≠ b)
    (hmem : ∀ v, v ∈ l ↔ v = a ∨ v = b) : l = [a, b] ∨ l = [b, a] := by
  have hal : a ∈ l := (hmem a).mpr (Or.inl rfl)
  have hbl : b ∈ l := (hmem b).mpr (Or.inr rfl)
  match l, hnd, hal, hbl with
  | [x], _, hal, hbl =>
    have hxa : a = x := List.mem_singleton.mp hal
    have hxb : b = x := List.mem_singleton.mp hbl
    exact absurd (hxa.trans hxb.symm) hab
  | x :: z :: rest, hnd, hal, hbl =>
    have hx : x = a ∨ x = b := (hmem x).mp (List.mem_cons_self _ _)
    have hz : z = a ∨ z = b := (hmem z).mp (List.mem_cons_of_mem _ (List.mem_cons_self _ _))
    have hxz : x ≠ z := by
      intro he
      exact (List.nodup_cons.mp hnd).1 (he ▸ List.mem_cons_self z rest)
    have hrest : rest = [] := by
      cases rest with
      | nil => rfl
      | cons w ws =>
        exfalso
        have hw : w = a ∨ w = b :=
          (hmem w).mp (List.mem_cons_of_mem _ (List.mem_cons_of_mem _ (List.mem_cons_self _ _)))
        have hnd2 := List.nodup_cons.mp hnd
        have hnd3 := List.nodup_cons.mp hnd2.2
        have hxw : x ≠ w := by
          intro he
          refine hnd2.1 ?_
          rw [he]
          exact List.mem_cons_of_mem z (List.mem_cons_self w ws)
        have hzw : z ≠ w := by
          intro he
          refine hnd3.1 ?_
          rw [he]
          exact List.mem_cons_self w ws
        rcases hx with hx | hx <;> rcases hz with hz | hz <;> rcases hw with hw | hw <;>
          first
          | exact hxz (hx.trans hz.symm)
          | exact hxw (hx.trans hw.symm)
          | exact hzw (hz.trans hw.symm)
    subst hrest
    rcases hx with hx | hx <;> rcases hz with hz | hz
    · exact absurd (hx.trans hz.symm) hxz
    · exact Or.inl (by rw [hx, hz])
    · exact Or.inr (by rw [hx, hz])
    · exact absurd (hx.trans hz.symm) hxz

theorem sortedClasses_two {y' : List Value} {a b : Value} (hab : a ≠ b)
    (hmem : ∀ v, v ∈ y' ↔ v = a ∨ v = b)
    (hsab : sortLe Value.leb [a, b] = [a, b])
    (hsba : sortLe Value.leb [b, a] = [a, b]) :
    sortedClasses y' = [a, b] := by
  have hdnd : y'.dedup.Nodup := List.nodup_dedup y'
  have hdmem : ∀ v, v ∈ y'.dedup ↔ v = a ∨ v = b :=
    fun v => List.mem_dedup.trans (hmem v)
  rcases nodup_two_mem hdnd hab hdmem with h | h
  · rw [sortedClasses, h, hsab]
  · rw [sortedClasses, h, hsba]

theorem validRNG_idRng : ValidRNG idRng := fun _ n => List.Perm.refl (List.range n)

theorem validRNG_seededRNG (s : Nat) : ValidRNG (seededRNG s) :=
  fun k n => List.rotate_perm (List.range n) ((s + 1) * (k + 7) % (n + 1))

/-- Evaluation form of a successful first-stage split: once the ceiling
and the checks are computed, the result is the `buildSplit` value. -/
theorem stratShuffleSplit_eval_ok {rng : RNG} {k : Nat} {y : List Value} {ts : Rat}
    {nTest : Nat} (hceil : (⌈ts * (y.length : Rat)⌉).toNat = nTest)
    (hchk : sssChecked y.length (sortedClasses y).length nTest
      ((sortedClasses y).map (fun c => y.count c)) (decide (0 < ts ∧ ts < 1)) = none) :
    stratShuffleSplit rng k y ts
      = .ok (buildSplit rng k y (sortedClasses y)
          ((sortedClasses y).map (fun c => y.count c)) (y.length - nTest) nTest) := by
  simp only [stratShuffleSplit, hceil]
  rw [hchk]


theorem y1000_length : y1000.length = 1000 := by
  rw [y1000, List.length_append, List.length_replicate, List.length_replicate]

theorem y1000_mem : ∀ v, v ∈ y1000 ↔ v = Value.vInt 0 ∨ v = Value.vInt 1 := by
  intro v
  rw [y1000, List.mem_append, List.mem_replicate, List.mem_replicate]
  constructor
  · rintro (⟨-, h⟩ | ⟨-, h⟩)
    · exact Or.inl h
    · exact Or.inr h
  · rintro (h | h)
    · exact Or.inl ⟨by omega, h⟩
    · exact Or.inr ⟨by omega, h⟩

theorem y1000_count0 : y1000.count (Value.vInt 0) = 800 := by
  rw [y1000, List.count_append, List.count_replicate, List.count_replicate]
  rfl

theorem y1000_count1 : y1000.count (Value.vInt 1) = 200 := by
  rw [y1000, List.count_append, List.count_replicate, List.count_replicate]
  rfl

theorem y1000_classes : sortedClasses y1000 = [Value.vInt 0, Value.vInt 1] :=
  sortedClasses_two (by decide) y1000_mem (by decide) (by decide)

theorem y1000_counts :
    (sortedClasses y1000).map (fun c => y1000.count c) = [800, 200] := by
  rw [y1000_classes, List.map_cons, List.map_cons, List.map_nil,
    y1000_count0, y1000_count1]

/-- The spec's end-to-end scenario, computed: splitting the 1000-row
table with `t = v = 0.2` succeeds and yields train 600 rows (120
positive), validation 200 rows (40 positive), test 200 rows (40
positive), for every valid generator stream. -/
theorem split1000_spec (rng : RNG) (hv : ValidRNG rng) (k : Nat) :
    ∃ tr va te,
      splitDataIdx rng k y1000 (1/5 : Rat) (1/5 : Rat) = .ok (tr, va, te) ∧
      tr.length = 600 ∧ va.length = 200 ∧ te.length = 200 ∧
      tr.countP (fun i => y1000.get? i == some (Value.vInt 1)) = 120 ∧
      va.countP (fun i => y1000.get? i == some (Value.vInt 1)) = 40 ∧
      te.countP (fun i => y1000.get? i == some (Value.vInt 1)) = 40 := by
  have hceil1 : (⌈(1/5 : Rat) * (y1000.length : Rat)⌉).toNat = 200 := by
    rw [y1000_length]
    norm_num
    rfl
  have hb1 : decide ((0:Rat) < 1/5 ∧ (1/5:Rat) < 1) = true := by
    rw [decide_eq_true_eq]
    norm_num
  have hchk1 : sssChecked y1000.length (sortedClasses y1000).length 200
      ((sortedClasses y1000).map (fun c => y1000.count c))
      (decide ((0:Rat) < 1/5 ∧ (1/5:Rat) < 1)) = none := by
    rw [y1000_counts, y1000_classes, y1000_length, hb1]
    decide
  have h1 := @stratShuffleSplit_eval_ok rng k y1000 (1/5 : Rat) 200 hceil1 hchk1
  set bs1 := buildSplit rng k y1000 (sortedClasses y1000)
    ((sortedClasses y1000).map (fun c => y1000.count c)) (y1000.length - 200) 200
    with hbs1
  have h1e : stratShuffleSplit rng k y1000 (1/5 : Rat)
      = .ok ((bs1.1.1, bs1.1.2), bs1.2) := h1
  have hs1 := stratShuffleSplit_ok_spec hv h1e
  have htr1len : bs1.1.1.length = 800 := by
    rw [hs1.2.1, hceil1, y1000_length]
  have hte1len : bs1.1.2.length = 200 := by
    rw [hs1.2.2.1, hceil1]
  have hcnt1 := hs1.2.2.2
  rw [hceil1, y1000_length] at hcnt1
  have hni1 : approximateMode ((sortedClasses y1000).map (fun c => y1000.count c))
      (1000 - 200) = [640, 160] := by
    rw [y1000_counts]
    decide
  have htr1c0 : bs1.1.1.countP (fun i => y1000.get? i == some (Value.vInt 0)) = 640 := by
    have := (hcnt1 0 (by rw [y1000_classes]; decide)).1
    rw [hni1, y1000_classes] at this
    simpa using this
  have htr1c1 : bs1.1.1.countP (fun i => y1000.get? i == some (Value.vInt 1)) = 160 := by
    have := (hcnt1 1 (by rw [y1000_classes]; decide)).1
    rw [hni1, y1000_classes] at this
    simpa using this
  have hte1c1 : bs1.1.2.countP (fun i => y1000.get? i == some (Value.vInt 1)) = 40 := by
    have := (hcnt1 1 (by rw [y1000_classes]; decide)).2
    rw [hni1, y1000_counts, y1000_classes] at this
    simpa using this
  have hrange1 : ∀ i ∈ bs1.1.1, i < y1000.length := by
    intro i hi
    exact List.mem_range.mp (hs1.1.mem_iff.mp (List.mem_append_left _ hi))
  have hyTrLen : (bs1.1.1.filterMap (fun i => y1000.get? i)).length = 800 := by
    rw [length_filterMap_get? hrange1, htr1len]
  have hyTrC0 : (bs1.1.1.filterMap (fun i => y1000.get? i)).count (Value.vInt 0) = 640 := by
    rw [count_filterMap_get? hrange1, htr1c0]
  have hyTrC1 : (bs1.1.1.filterMap (fun i => y1000.get? i)).count (Value.vInt 1) = 160 := by
    rw [count_filterMap_get? hrange1, htr1c1]
  have hyTrMem : ∀ v, v ∈ bs1.1.1.filterMap (fun i => y1000.get? i) ↔
      v = Value.vInt 0 ∨ v = Value.vInt 1 := by
    intro v
    constructor
    · intro hvmem
      rcases List.mem_filterMap.mp hvmem with ⟨i, -, hget⟩
      exact (y1000_mem v).mp (List.get?_mem hget)
    · rintro (h | h)
      · subst h
        exact List.count_pos_iff.mp (by rw [hyTrC0]; omega)
      · subst h
        exact List.count_pos_iff.mp (by rw [hyTrC1]; omega)
  have hyTrClasses : sortedClasses (bs1.1.1.filterMap (fun i => y1000.get? i))
      = [Value.vInt 0, Value.vInt 1] :=
    sortedClasses_two (by decide) hyTrMem (by decide) (by decide)
  have hyTrCounts : (sortedClasses (bs1.1.1.filterMap (fun i => y1000.get? i))).map
      (fun c => (bs1.1.1.filterMap (fun i => y1000.get? i)).count c) = [640, 160] := by
    rw [hyTrClasses, List.map_cons, List.map_cons, List.map_nil, hyTrC0, hyTrC1]
  have hceil2 : (⌈((1/5 : Rat) / (1 - (1/5 : Rat))) *
      ((bs1.1.1.filterMap (fun i => y1000.get? i)).length : Rat)⌉).toNat = 200 := by
    rw [hyTrLen]
    norm_num
    rfl
  have hb2 : decide ((0:Rat) < (1/5 : Rat) / (1 - (1/5 : Rat)) ∧
      (1/5 : Rat) / (1 - (1/5 : Rat)) < 1) = true := by
    rw [decide_eq_true_eq]
    norm_num
  have hchk2 : sssChecked (bs1.1.1.filterMap (fun i => y1000.get? i)).length
      (sortedClasses (bs1.1.1.filterMap (fun i => y1000.get? i))).length 200
      ((sortedClasses (bs1.1.1.filterMap (fun i => y1000.get? i))).map
        (fun c => (bs1.1.1.filterMap (fun i => y1000.get? i)).count c))
      (decide ((0:Rat) < (1/5 : Rat) / (1 - (1/5 : Rat)) ∧
        (1/5 : Rat) / (1 - (1/5 : Rat)) < 1)) = none := by
    rw [hyTrCounts, hyTrClasses, hyTrLen, hb2]
    decide
  have h2 := @stratShuffleSplit_eval_ok rng bs1.2 (bs1.1.1.filterMap (fun i => y1000.get? i)) ((1/5 : Rat) / (1 - (1/5 : Rat))) 200 hceil2 hchk2
  set yTr := bs1.1.1.filterMap (fun i => y1000.get? i) with hyTr
  set bs2 := buildSplit rng bs1.2 yTr (sortedClasses yTr)
    ((sortedClasses yTr).map (fun c => yTr.count c)) (yTr.length - 200) 200
    with hbs2
  have h2e : stratShuffleSplit rng bs1.2 yTr ((1/5 : Rat) / (1 - (1/5 : Rat)))
      = .ok ((bs2.1.1, bs2.1.2), bs2.2) := h2
  have hs2 := stratShuffleSplit_ok_spec hv h2e
  have htr2len : bs2.1.1.length = 600 := by
    rw [hs2.2.1, hceil2, hyTrLen]
  have hva2len : bs2.1.2.length = 200 := by
    rw [hs2.2.2.1, hceil2]
  have hcnt2 := hs2.2.2.2
  rw [hceil2, hyTrLen] at hcnt2
  have hni2 : approximateMode ((sortedClasses yTr).map (fun c => yTr.count c))
      (800 - 200) = [480, 120] := by
    rw [hyTrCounts]
    decide
  have htr2c1 : bs2.1.1.countP (fun i => yTr.get? i == some (Value.vInt 1)) = 120 := by
    have := (hcnt2 1 (by rw [hyTrClasses]; decide)).1
    rw [hni2, hyTrClasses] at this
    simpa using this
  have hva2c1 : bs2.1.2.countP (fun i => yTr.get? i == some (Value.vInt 1)) = 40 := by
    have := (hcnt2 1 (by rw [hyTrClasses]; decide)).2
    rw [hni2, hyTrCounts, hyTrClasses] at this
    simpa using this
  have hrange2 : ∀ i ∈ bs2.1.1, i < bs1.1.1.length := by
    intro i hi
    have := List.mem_range.mp (hs2.1.mem_iff.mp (List.mem_append_left _ hi))
    rw [hyTrLen] at this
    rw [htr1len]
    exact this
  have hrange2v : ∀ i ∈ bs2.1.2, i < bs1.1.1.length := by
    intro i hi
    have := List.mem_range.mp (hs2.1.mem_iff.mp (List.mem_append_right _ hi))
    rw [hyTrLen] at this
    rw [htr1len]
    exact this
  refine ⟨applyPerm bs2.1.1 bs1.1.1, applyPerm bs2.1.2 bs1.1.1, bs1.1.2, ?_, ?_, ?_,
    hte1len, ?_, ?_, hte1c1⟩
  · rw [splitDataIdx, h1e]
    simp only []
    rw [h2e]
  · rw [applyPerm, length_filterMap_get? hrange2, htr2len]
  · rw [applyPerm, length_filterMap_get? hrange2v, hva2len]
  · rw [countP_applyPerm_eq hrange1 hrange2]
    exact htr2c1
  · rw [countP_applyPerm_eq hrange1 hrange2v]
    exact hva2c1

/-- Evaluation form of a failing first-stage split. -/
theorem stratShuffleSplit_eval_err {rng : RNG} {k : Nat} {y : List Value} {ts : Rat}
    {nTest : Nat} {e : SplitError}
    (hceil : (⌈ts * (y.length : Rat)⌉).toNat = nTest)
    (hchk : sssChecked y.length (sortedClasses y).length nTest
      ((sortedClasses y).map (fun c => y.count c)) (decide (0 < ts ∧ ts < 1))
      = some e) :
    stratShuffleSplit rng k y ts = .error e := by
  simp only [stratShuffleSplit, hceil]
  rw [hchk]

theorem splitDataIdx_eval_err {rng : RNG} {k : Nat} {y : List Value} {ts vs : Rat}
    {nTest : Nat} {e : SplitError}
    (hceil : (⌈ts * (y.length : Rat)⌉).toNat = nTest)
    (hchk : sssChecked y.length (sortedClasses y).length nTest
      ((sortedClasses y).map (fun c => y.count c)) (decide (0 < ts ∧ ts < 1))
      = some e) :
    splitDataIdx rng k y ts vs = .error e := by
  rw [splitDataIdx, stratShuffleSplit_eval_err hceil hchk]


theorem split_y4ex_eval {rng : RNG} {k : Nat} :
    splitDataIdx rng k y4ex (1/5 : Rat) (1/5 : Rat)
      = .error .partitionSmallerThanClasses := by
  have hb : decide ((0:Rat) < 1/5 ∧ (1/5:Rat) < 1) = true := by
    rw [decide_eq_true_eq]
    norm_num
  have hceil : (⌈(1/5 : Rat) * (y4ex.length : Rat)⌉).toNat = 1 := by
    have hl : y4ex.length = 4 := rfl
    rw [hl]
    have h : ⌈(1/5 : Rat) * (4 : Nat)⌉ = 1 := by
      rw [Int.ceil_eq_iff]
      norm_num
    rw [h]
    rfl
  refine splitDataIdx_eval_err hceil ?_
  rw [hb]
  decide


theorem split_y10ex_eval :
    splitDataIdx idRng 0 y10ex (1/5 : Rat) (1/5 : Rat)
      = .ok ([0, 1, 2, 3, 4, 5], [6, 7], [8, 9]) := by
  have hb1 : decide ((0:Rat) < 1/5 ∧ (1/5:Rat) < 1) = true := by
    rw [decide_eq_true_eq]
    norm_num
  have hceil1 : (⌈(1/5 : Rat) * (y10ex.length : Rat)⌉).toNat = 2 := by
    have hl : y10ex.length = 10 := rfl
    rw [hl]
    norm_num
    rfl
  have hchk1 : sssChecked y10ex.length (sortedClasses y10ex).length 2
      ((sortedClasses y10ex).map (fun c => y10ex.count c))
      (decide ((0:Rat) < 1/5 ∧ (1/5:Rat) < 1)) = none := by
    rw [hb1]
    decide
  have h1 := @stratShuffleSplit_eval_ok idRng 0 y10ex (1/5 : Rat) 2 hceil1 hchk1
  have hbs1 : buildSplit idRng 0 y10ex (sortedClasses y10ex)
      ((sortedClasses y10ex).map (fun c => y10ex.count c)) (y10ex.length - 2) 2
      = (([0, 1, 2, 3, 4, 5, 6, 7], [8, 9]), 4) := by decide
  rw [hbs1] at h1
  have hb2 : decide ((0:Rat) < (1/5 : Rat) / (1 - (1/5 : Rat)) ∧
      (1/5 : Rat) / (1 - (1/5 : Rat)) < 1) = true := by
    rw [decide_eq_true_eq]
    norm_num
  have hlen2 : (List.filterMap (fun i => y10ex.get? i)
      ([0, 1, 2, 3, 4, 5, 6, 7] : List Nat)).length = 8 := by decide
  have hceil2 : (⌈((1/5 : Rat) / (1 - (1/5 : Rat))) *
      ((List.filterMap (fun i => y10ex.get? i)
        ([0, 1, 2, 3, 4, 5, 6, 7] : List Nat)).length : Rat)⌉).toNat = 2 := by
    rw [hlen2]
    norm_num
    rfl
  have hchk2 : sssChecked (List.filterMap (fun i => y10ex.get? i)
        ([0, 1, 2, 3, 4, 5, 6, 7] : List Nat)).length
      (sortedClasses (List.filterMap (fun i => y10ex.get? i)
        ([0, 1, 2, 3, 4, 5, 6, 7] : List Nat))).length 2
      ((sortedClasses (List.filterMap (fun i => y10ex.get? i)
        ([0, 1, 2, 3, 4, 5, 6, 7] : List Nat))).map
        (fun c => (List.filterMap (fun i => y10ex.get? i)
          ([0, 1, 2, 3, 4, 5, 6, 7] : List Nat)).count c))
      (decide ((0:Rat) < (1/5 : Rat) / (1 - (1/5 : Rat)) ∧
        (1/5 : Rat) / (1 - (1/5 : Rat)) < 1)) = none := by
    rw [hb2]
    decide
  have h2 := @stratShuffleSplit_eval_ok idRng 4 (List.filterMap (fun i => y10ex.get? i) ([0, 1, 2, 3, 4, 5, 6, 7] : List Nat)) ((1/5 : Rat) / (1 - (1/5 : Rat))) 2 hceil2 hchk2
  have hbs2 : buildSplit idRng 4 (List.filterMap (fun i => y10ex.get? i)
        ([0, 1, 2, 3, 4, 5, 6, 7] : List Nat))
      (sortedClasses (List.filterMap (fun i => y10ex.get? i)
        ([0, 1, 2, 3, 4, 5, 6, 7] : List Nat)))
      ((sortedClasses (List.filterMap (fun i => y10ex.get? i)
        ([0, 1, 2, 3, 4, 5, 6, 7] : List Nat))).map
        (fun c => (List.filterMap (fun i => y10ex.get? i)
          ([0, 1, 2, 3, 4, 5, 6, 7] : List Nat)).count c))
      ((List.filterMap (fun i => y10ex.get? i)
        ([0, 1, 2, 3, 4, 5, 6, 7] : List Nat)).length - 2) 2
      = (([0, 1, 2, 3, 4, 5], [6, 7]), 8) := by decide
  rw [hbs2] at h2
  rw [splitDataIdx, h1]
  simp only []
  rw [h2]
  simp only []
  rfl

/-! ## Lemmas about the persistence model -/

theorem fsRead_write_self (fs : SplitsFS) (p : List String) (v : PObj) :
    fsRead (fsWrite fs p v) p = some v := by
  rw [fsRead, fsWrite, List.find?_cons_of_pos _ (by simp)]
  rfl

theorem fsRead_write_ne (fs : SplitsFS) {p q : List String} (v : PObj) (h : p ≠ q) :
    fsRead (fsWrite fs p v) q = fsRead fs q := by
  rw [fsRead, fsWrite, List.find?_cons_of_neg _ (by simpa using h), fsRead]

theorem dirFile_ne {dir : List String} {a b : String} (h : a ≠ b) :
    dir ++ [a] ≠ dir ++ [b] := by
  intro he
  exact h (by simpa using List.append_cancel_left he)

theorem find?_eq_some_split {p : α → Bool} :
    ∀ {l : List α} {a : α}, l.find? p = some a →
      p a = true ∧ ∃ l₁ l₂, l = l₁ ++ a :: l₂ ∧ ∀ b ∈ l₁, p b = false := by
  intro l
  induction l with
  | nil => intro a h; simp at h
  | cons x t ih =>
    intro a h
    by_cases hx : p x = true
    · rw [List.find?_cons_of_pos _ hx] at h
      obtain rfl : x = a := Option.some_inj.mp h
      exact ⟨hx, [], t, rfl, fun b hb => absurd hb (List.not_mem_nil b)⟩
    · rw [List.find?_cons_of_neg _ hx] at h
      obtain ⟨hpa, l₁, l₂, hsplit, hpre⟩ := ih h
      refine ⟨hpa, x :: l₁, l₂, by rw [hsplit]; rfl, ?_⟩
      intro b hb
      rcases List.mem_cons.mp hb with rfl | hb2
      · cases hpb : p b
        · rfl
        · exact absurd hpb hx
      · exact hpre b hb2

/-! ## The claims -/

/-- C1 (counterexample): a labeled table with exactly 2 members of each
class and fractions `t = v = 1/5` (both in `(0,1)`, `t + v < 1`) on which
`split_data` does not return six outputs but raises the scikit-learn
error that the test partition would be smaller than the number of
classes. -/
theorem claim_C1_counterexample :
    y4ex.count (Value.vInt 0) = 2 ∧ y4ex.count (Value.vInt 1) = 2 ∧
    splitDataIdx idRng 0 y4ex (1/5 : Rat) (1/5 : Rat)
      = .error .partitionSmallerThanClasses :=
  ⟨by decide, by decide, split_y4ex_eval⟩

/-- C1 (amended): whenever `split_data` succeeds, the train, validation
and test row positions together count every row exactly once: the sizes
sum to the number of rows and the three position lists are pairwise
disjoint. (The original claim asserted unconditional success, which the
counterexample refutes.) -/
theorem claim_C1_partition {rng : RNG} {k : Nat} {y : List Value} {ts vs : Rat}
    {tr va te : List Nat} (hv : ValidRNG rng)
    (h : splitDataIdx rng k y ts vs = .ok (tr, va, te)) :
    tr.length + va.length + te.length = y.length ∧
    tr.Disjoint va ∧ tr.Disjoint te ∧ va.Disjoint te := by
  have hperm := splitDataIdx_partition hv h
  have hlen := hperm.length_eq
  rw [List.length_append, List.length_append, List.length_range] at hlen
  have hnd : (tr ++ (va ++ te)).Nodup := hperm.nodup_iff.mpr (List.nodup_range _)
  rw [List.nodup_append] at hnd
  obtain ⟨h1, h2, h3⟩ := hnd
  rw [List.nodup_append] at h2
  obtain ⟨h4, h5, h6⟩ := h2
  refine ⟨by omega, ?_, ?_, h6⟩
  · exact fun a ha hav => h3 ha (List.mem_append_left te hav)
  · exact fun a ha hat => h3 ha (List.mem_append_right va hat)

/-- C1 witness: the partition property at a concrete successful split. -/
theorem claim_C1_partition_witness :
    ([0, 1, 2, 3, 4, 5] : List Nat).length + ([6, 7] : List Nat).length +
      ([8, 9] : List Nat).length = y10ex.length ∧
    ([0, 1, 2, 3, 4, 5] : List Nat).Disjoint [6, 7] ∧
    ([0, 1, 2, 3, 4, 5] : List Nat).Disjoint [8, 9] ∧
    ([6, 7] : List Nat).Disjoint [8, 9] :=
  claim_C1_partition validRNG_idRng split_y10ex_eval

/-- C3: two runs of `split_data` with equal configurations carrying the
same seed give identical results, whatever ambient entropy each process
would otherwise have used. -/
theorem claim_C3_determinism (e1 e2 : RNG) (sp : DataSplitter) (d : DataFrame)
    (tc : String) (seed : Nat) (hseed : sp.random_state = some seed) :
    split_data_run e1 sp d tc = split_data_run e2 sp d tc := by
  simp only [split_data_run, hseed]

/-- C3 witness: determinism at a concrete configuration and table. -/
theorem claim_C3_determinism_witness :
    split_data_run idRng spW dfW7 "label"
      = split_data_run (seededRNG 99) spW dfW7 "label" :=
  claim_C3_determinism idRng (seededRNG 99) spW dfW7 "label" 1 rfl

/-- C4 (counterexample): a table whose class 0 has only 2 members — fewer
than required to appear in all three partitions — on which `split_data`
silently succeeds with class 0 absent from the test partition instead of
raising the insufficient-class-members error. -/
theorem claim_C4_counterexample :
    y10ex.count (Value.vInt 0) = 2 ∧
    splitDataIdx idRng 0 y10ex (1/5 : Rat) (1/5 : Rat)
      = .ok ([0, 1, 2, 3, 4, 5], [6, 7], [8, 9]) ∧
    ([8, 9] : List Nat).countP (fun i => y10ex.get? i == some (Value.vInt 0)) = 0 :=
  ⟨by decide, split_y10ex_eval, by decide⟩

/-- C4 (amended): `split_data` raises the explicit
insufficient-class-members error exactly in scikit-learn's case — some
class has fewer than 2 members (given that the size checks running
earlier pass); a class with at least 2 members that is still too small to
reach all three partitions is silently allowed to miss one. -/
theorem claim_C4_insufficient {rng : RNG} {k : Nat} {y : List Value} {ts vs : Rat}
    (hts : 0 < ts ∧ ts < 1)
    (hlt : (⌈ts * (y.length : Rat)⌉).toNat < y.length)
    (hc : ∃ v ∈ y, y.count v < 2) :
    splitDataIdx rng k y ts vs = .error .insufficientClassMembers :=
  splitDataIdx_insufficient hts hlt hc

/-- C4 witness: the insufficient-class error at a concrete table with a
singleton class. -/
theorem claim_C4_insufficient_witness :
    splitDataIdx idRng 0 y5ex (1/5 : Rat) (1/5 : Rat)
      = .error .insufficientClassMembers := by
  refine claim_C4_insufficient ⟨by norm_num, by norm_num⟩ ?_ ?_
  · have hl : y5ex.length = 5 := rfl
    rw [hl]
    have h : ⌈(1/5 : Rat) * (5 : Nat)⌉ = 1 := by
      rw [Int.ceil_eq_iff]
      norm_num
    rw [h]
    norm_num
  · exact ⟨Value.vInt 0, by decide, by decide⟩

/-- C8 (counterexample): at the spec's scenario — 1000 rows, 200
positives, `t = v = 0.2`, seed 1 — the validation partition has 200 rows
and the train partition 600 rows, not the approximately 160 and 480 the
claim states (whose totals, 840, also contradict the sum invariant). -/
theorem claim_C8_counterexample :
    (splitDataIdx (seededRNG 1) 0 y1000 (1/5 : Rat) (1/5 : Rat)).map
      (fun r => (r.1.length, r.2.1.length, r.2.2.length)) = .ok (600, 200, 200) := by
  obtain ⟨tr, va, te, h, hl1, hl2, hl3, -, -, -⟩ :=
    split1000_spec (seededRNG 1) (validRNG_seededRNG 1) 0
  rw [h, Except.map, hl1, hl2, hl3]

/-- C8 (amended): for the 1000-row table with 200 positives and
`t = v = 0.2`, the split produces a test partition of 200 rows (40
positive), and divides the remaining 800 rows — with the rescaled
second-stage fraction `v_adj = 0.2/0.8 = 0.25` — into a train partition
of 600 rows (120 positive) and a validation partition of 200 rows (40
positive), for every valid generator. -/
theorem claim_C8_scenario (rng : RNG) (hv : ValidRNG rng) (k : Nat) :
    ∃ tr va te,
      splitDataIdx rng k y1000 (1/5 : Rat) (1/5 : Rat) = .ok (tr, va, te) ∧
      tr.length = 600 ∧ va.length = 200 ∧ te.length = 200 ∧
      tr.countP (fun i => y1000.get? i == some (Value.vInt 1)) = 120 ∧
      va.countP (fun i => y1000.get? i == some (Value.vInt 1)) = 40 ∧
      te.countP (fun i => y1000.get? i == some (Value.vInt 1)) = 40 :=
  split1000_spec rng hv k

/-- C8 witness: the scenario at the seeded generator of the script. -/
theorem claim_C8_scenario_witness :
    (splitDataIdx (seededRNG 1) 0 y1000 (1/5 : Rat) (1/5 : Rat)).map
      (fun r => (r.1.length, r.2.1.length, r.2.2.length,
        r.1.countP (fun i => y1000.get? i == some (Value.vInt 1)),
        r.2.1.countP (fun i => y1000.get? i == some (Value.vInt 1)),
        r.2.2.countP (fun i => y1000.get? i == some (Value.vInt 1))))
      = .ok (600, 200, 200, 120, 40, 40) := by
  obtain ⟨tr, va, te, h, hl1, hl2, hl3, hc1, hc2, hc3⟩ :=
    claim_C8_scenario (seededRNG 1) (validRNG_seededRNG 1) 0
  rw [h, Except.map, hl1, hl2, hl3, hc1, hc2, hc3]

/-- C9: `catboost_pools` never reaches the pool construction — its first
statement reads the undefined module global `logger`, so every call
raises `NameError` instead of performing the pure repackaging the claim
describes. -/
theorem claim_C9_nameError (x1 x2 x3 : DataFrame) (s1 s2 s3 : Series)
    (cc : List String) :
    catboost_pools x1 x2 x3 s1 s2 s3 cc = .error (.nameError "logger") := by
  rw [catboost_pools, if_neg (by decide)]

/-- C2: loading from the same root and tag after saving returns the
bundle unchanged, field by field, every stored value (hence its exact
type) preserved. -/
theorem claim_C2_roundtrip (a b c d e f g : PObj) (dirArg : PathArg)
    (tag : Option Int) (fs : SplitsFS) :
    load_data_splits (save_splits fs [("x_train", a), ("x_val", b), ("x_test", c), ("y_train", d), ("y_val", e), ("y_test", f), ("categorical_cols", g)] dirArg tag) dirArg tag
      = .ok [("x_train", a), ("x_val", b), ("x_test", c), ("y_train", d), ("y_val", e), ("y_test", f), ("categorical_cols", g)] := by
  have hsave : save_splits fs [("x_train", a), ("x_val", b), ("x_test", c), ("y_train", d), ("y_val", e), ("y_test", f), ("categorical_cols", g)] dirArg tag
      = fsWrite (fsWrite (fsWrite (fsWrite (fsWrite (fsWrite (fsWrite (fs) (resolveSplitsDir dirArg tag ++ ["x_train.pkl"]) a) (resolveSplitsDir dirArg tag ++ ["x_val.pkl"]) b) (resolveSplitsDir dirArg tag ++ ["x_test.pkl"]) c) (resolveSplitsDir dirArg tag ++ ["y_train.pkl"]) d) (resolveSplitsDir dirArg tag ++ ["y_val.pkl"]) e) (resolveSplitsDir dirArg tag ++ ["y_test.pkl"]) f) (resolveSplitsDir dirArg tag ++ ["categorical_cols.pkl"]) g := rfl
  have hr0 : fsRead (fsWrite (fsWrite (fsWrite (fsWrite (fsWrite (fsWrite (fsWrite (fs) (resolveSplitsDir dirArg tag ++ ["x_train.pkl"]) a) (resolveSplitsDir dirArg tag ++ ["x_val.pkl"]) b) (resolveSplitsDir dirArg tag ++ ["x_test.pkl"]) c) (resolveSplitsDir dirArg tag ++ ["y_train.pkl"]) d) (resolveSplitsDir dirArg tag ++ ["y_val.pkl"]) e) (resolveSplitsDir dirArg tag ++ ["y_test.pkl"]) f) (resolveSplitsDir dirArg tag ++ ["categorical_cols.pkl"]) g) (resolveSplitsDir dirArg tag ++ ["x_train.pkl"]) = some a := by
    rw [fsRead_write_ne _ _ (dirFile_ne (by decide : ("categorical_cols.pkl" : String) ≠ "x_train.pkl"))]
    rw [fsRead_write_ne _ _ (dirFile_ne (by decide : ("y_test.pkl" : String) ≠ "x_train.pkl"))]
    rw [fsRead_write_ne _ _ (dirFile_ne (by decide : ("y_val.pkl" : String) ≠ "x_train.pkl"))]
    rw [fsRead_write_ne _ _ (dirFile_ne (by decide : ("y_train.pkl" : String) ≠ "x_train.pkl"))]
    rw [fsRead_write_ne _ _ (dirFile_ne (by decide : ("x_test.pkl" : String) ≠ "x_train.pkl"))]
    rw [fsRead_write_ne _ _ (dirFile_ne (by decide : ("x_val.pkl" : String) ≠ "x_train.pkl"))]
    exact fsRead_write_self _ _ _
  have hr1 : fsRead (fsWrite (fsWrite (fsWrite (fsWrite (fsWrite (fsWrite (fsWrite (fs) (resolveSplitsDir dirArg tag ++ ["x_train.pkl"]) a) (resolveSplitsDir dirArg tag ++ ["x_val.pkl"]) b) (resolveSplitsDir dirArg tag ++ ["x_test.pkl"]) c) (resolveSplitsDir dirArg tag ++ ["y_train.pkl"]) d) (resolveSplitsDir dirArg tag ++ ["y_val.pkl"]) e) (resolveSplitsDir dirArg tag ++ ["y_test.pkl"]) f) (resolveSplitsDir dirArg tag ++ ["categorical_cols.pkl"]) g) (resolveSplitsDir dirArg tag ++ ["x_val.pkl"]) = some b := by
    rw [fsRead_write_ne _ _ (dirFile_ne (by decide : ("categorical_cols.pkl" : String) ≠ "x_val.pkl"))]
    rw [fsRead_write_ne _ _ (dirFile_ne (by decide : ("y_test.pkl" : String) ≠ "x_val.pkl"))]
    rw [fsRead_write_ne _ _ (dirFile_ne (by decide : ("y_val.pkl" : String) ≠ "x_val.pkl"))]
    rw [fsRead_write_ne _ _ (dirFile_ne (by decide : ("y_train.pkl" : String) ≠ "x_val.pkl"))]
    rw [fsRead_write_ne _ _ (dirFile_ne (by decide : ("x_test.pkl" : String) ≠ "x_val.pkl"))]
    exact fsRead_write_self _ _ _
  have hr2 : fsRead (fsWrite (fsWrite (fsWrite (fsWrite (fsWrite (fsWrite (fsWrite (fs) (resolveSplitsDir dirArg tag ++ ["x_train.pkl"]) a) (resolveSplitsDir dirArg tag ++ ["x_val.pkl"]) b) (resolveSplitsDir dirArg tag ++ ["x_test.pkl"]) c) (resolveSplitsDir dirArg tag ++ ["y_train.pkl"]) d) (resolveSplitsDir dirArg tag ++ ["y_val.pkl"]) e) (resolveSplitsDir dirArg tag ++ ["y_test.pkl"]) f) (resolveSplitsDir dirArg tag ++ ["categorical_cols.pkl"]) g) (resolveSplitsDir dirArg tag ++ ["x_test.pkl"]) = some c := by
    rw [fsRead_write_ne _ _ (dirFile_ne (by decide : ("categorical_cols.pkl" : String) ≠ "x_test.pkl"))]
    rw [fsRead_write_ne _ _ (dirFile_ne (by decide : ("y_test.pkl" : String) ≠ "x_test.pkl"))]
    rw [fsRead_write_ne _ _ (dirFile_ne (by decide : ("y_val.pkl" : String) ≠ "x_test.pkl"))]
    rw [fsRead_write_ne _ _ (dirFile_ne (by decide : ("y_train.pkl" : String) ≠ "x_test.pkl"))]
    exact fsRead_write_self _ _ _
  have hr3 : fsRead (fsWrite (fsWrite (fsWrite (fsWrite (fsWrite (fsWrite (fsWrite (fs) (resolveSplitsDir dirArg tag ++ ["x_train.pkl"]) a) (resolveSplitsDir dirArg tag ++ ["x_val.pkl"]) b) (resolveSplitsDir dirArg tag ++ ["x_test.pkl"]) c) (resolveSplitsDir dirArg tag ++ ["y_train.pkl"]) d) (resolveSplitsDir dirArg tag ++ ["y_val.pkl"]) e) (resolveSplitsDir dirArg tag ++ ["y_test.pkl"]) f) (resolveSplitsDir dirArg tag ++ ["categorical_cols.pkl"]) g) (resolveSplitsDir dirArg tag ++ ["y_train.pkl"]) = some d := by
    rw [fsRead_write_ne _ _ (dirFile_ne (by decide : ("categorical_cols.pkl" : String) ≠ "y_train.pkl"))]
    rw [fsRead_write_ne _ _ (dirFile_ne (by decide : ("y_test.pkl" : String) ≠ "y_train.pkl"))]
    rw [fsRead_write_ne _ _ (dirFile_ne (by decide : ("y_val.pkl" : String) ≠ "y_train.pkl"))]
    exact fsRead_write_self _ _ _
  have hr4 : fsRead (fsWrite (fsWrite (fsWrite (fsWrite (fsWrite (fsWrite (fsWrite (fs) (resolveSplitsDir dirArg tag ++ ["x_train.pkl"]) a) (resolveSplitsDir dirArg tag ++ ["x_val.pkl"]) b) (resolveSplitsDir dirArg tag ++ ["x_test.pkl"]) c) (resolveSplitsDir dirArg tag ++ ["y_train.pkl"]) d) (resolveSplitsDir dirArg tag ++ ["y_val.pkl"]) e) (resolveSplitsDir dirArg tag ++ ["y_test.pkl"]) f) (resolveSplitsDir dirArg tag ++ ["categorical_cols.pkl"]) g) (resolveSplitsDir dirArg tag ++ ["y_val.pkl"]) = some e := by
    rw [fsRead_write_ne _ _ (dirFile_ne (by decide : ("categorical_cols.pkl" : String) ≠ "y_val.pkl"))]
    rw [fsRead_write_ne _ _ (dirFile_ne (by decide : ("y_test.pkl" : String) ≠ "y_val.pkl"))]
    exact fsRead_write_self _ _ _
  have hr5 : fsRead (fsWrite (fsWrite (fsWrite (fsWrite (fsWrite (fsWrite (fsWrite (fs) (resolveSplitsDir dirArg tag ++ ["x_train.pkl"]) a) (resolveSplitsDir dirArg tag ++ ["x_val.pkl"]) b) (resolveSplitsDir dirArg tag ++ ["x_test.pkl"]) c) (resolveSplitsDir dirArg tag ++ ["y_train.pkl"]) d) (resolveSplitsDir dirArg tag ++ ["y_val.pkl"]) e) (resolveSplitsDir dirArg tag ++ ["y_test.pkl"]) f) (resolveSplitsDir dirArg tag ++ ["categorical_cols.pkl"]) g) (resolveSplitsDir dirArg tag ++ ["y_test.pkl"]) = some f := by
    rw [fsRead_write_ne _ _ (dirFile_ne (by decide : ("categorical_cols.pkl" : String) ≠ "y_test.pkl"))]
    exact fsRead_write_self _ _ _
  have hr6 : fsRead (fsWrite (fsWrite (fsWrite (fsWrite (fsWrite (fsWrite (fsWrite (fs) (resolveSplitsDir dirArg tag ++ ["x_train.pkl"]) a) (resolveSplitsDir dirArg tag ++ ["x_val.pkl"]) b) (resolveSplitsDir dirArg tag ++ ["x_test.pkl"]) c) (resolveSplitsDir dirArg tag ++ ["y_train.pkl"]) d) (resolveSplitsDir dirArg tag ++ ["y_val.pkl"]) e) (resolveSplitsDir dirArg tag ++ ["y_test.pkl"]) f) (resolveSplitsDir dirArg tag ++ ["categorical_cols.pkl"]) g) (resolveSplitsDir dirArg tag ++ ["categorical_cols.pkl"]) = some g := by
    exact fsRead_write_self _ _ _
  rw [hsave]
  simp only [load_data_splits]
  have hfind : requiredFiles.find?
      (fun f' => (fsRead (fsWrite (fsWrite (fsWrite (fsWrite (fsWrite (fsWrite (fsWrite (fs) (resolveSplitsDir dirArg tag ++ ["x_train.pkl"]) a) (resolveSplitsDir dirArg tag ++ ["x_val.pkl"]) b) (resolveSplitsDir dirArg tag ++ ["x_test.pkl"]) c) (resolveSplitsDir dirArg tag ++ ["y_train.pkl"]) d) (resolveSplitsDir dirArg tag ++ ["y_val.pkl"]) e) (resolveSplitsDir dirArg tag ++ ["y_test.pkl"]) f) (resolveSplitsDir dirArg tag ++ ["categorical_cols.pkl"]) g) (resolveSplitsDir dirArg tag ++ [f'])).isNone) = none := by
    rw [requiredFiles]
    rw [List.find?_cons_of_neg _ (by rw [hr0]; simp)]
    rw [List.find?_cons_of_neg _ (by rw [hr1]; simp)]
    rw [List.find?_cons_of_neg _ (by rw [hr2]; simp)]
    rw [List.find?_cons_of_neg _ (by rw [hr3]; simp)]
    rw [List.find?_cons_of_neg _ (by rw [hr4]; simp)]
    rw [List.find?_cons_of_neg _ (by rw [hr5]; simp)]
    rw [List.find?_cons_of_neg _ (by rw [hr6]; simp)]
    rfl
  rw [hfind]
  simp only [requiredFiles, List.filterMap_cons, hr0, hr1, hr2, hr3, hr4, hr5, hr6, Option.map_some, List.filterMap_nil]
  rfl

/-- C5: whenever one of the 7 required files is missing from the resolved
split directory, `load_data_splits` raises the missing-file error naming
the first missing file — every file checked before it exists — and
returns no result mapping at all. -/
theorem claim_C5_failfast (fs : SplitsFS) (splits_path : PathArg) (tag : Option Int)
    (hmiss : ∃ f ∈ requiredFiles,
      fsRead fs (resolveSplitsDir splits_path tag ++ [f]) = none) :
    ∃ f ∈ requiredFiles,
      fsRead fs (resolveSplitsDir splits_path tag ++ [f]) = none ∧
      load_data_splits fs splits_path tag
        = .error (.missingSplitFile (resolveSplitsDir splits_path tag ++ [f])) ∧
      ∃ l₁ l₂, requiredFiles = l₁ ++ f :: l₂ ∧
        ∀ g ∈ l₁, (fsRead fs (resolveSplitsDir splits_path tag ++ [g])).isSome = true := by
  cases hf : requiredFiles.find?
      (fun f => (fsRead fs (resolveSplitsDir splits_path tag ++ [f])).isNone) with
  | none =>
    exfalso
    obtain ⟨f, hfm, hfn⟩ := hmiss
    have := List.find?_eq_none.mp hf f hfm
    rw [hfn] at this
    exact this rfl
  | some f =>
    obtain ⟨hpf, l₁, l₂, hsplit, hpre⟩ := find?_eq_some_split hf
    have hfm : f ∈ requiredFiles := by
      rw [hsplit]
      exact List.mem_append_right l₁ (List.mem_cons_self f l₂)
    have hfn : fsRead fs (resolveSplitsDir splits_path tag ++ [f]) = none :=
      Option.isNone_iff_eq_none.mp hpf
    refine ⟨f, hfm, hfn, ?_, l₁, l₂, hsplit, ?_⟩
    · simp only [load_data_splits]
      rw [hf]
    · intro g hg
      have := hpre g hg
      cases ho : fsRead fs (resolveSplitsDir splits_path tag ++ [g]) with
      | none => rw [ho] at this; simp at this
      | some v => rfl

/-- C5 witness: loading from an empty file system fails on the first
required file, `x_train.pkl`. -/
theorem claim_C5_failfast_witness :
    load_data_splits ([] : SplitsFS) (.str "outputs/splits") (some 1)
      = .error (.missingSplitFile
          (resolveSplitsDir (.str "outputs/splits") (some 1) ++ ["x_train.pkl"])) := by
  obtain ⟨f, hfm, hfn, hload, l₁, l₂, hsplit, hpre⟩ :=
    claim_C5_failfast [] (.str "outputs/splits") (some 1)
      ⟨"x_train.pkl", by decide, rfl⟩
  have hl1 : l₁ = [] := by
    cases l₁ with
    | nil => rfl
    | cons g gs =>
      have := hpre g (List.mem_cons_self g gs)
      simp [fsRead] at this
  subst hl1
  rw [requiredFiles] at hsplit
  simp only [List.nil_append, List.cons.injEq] at hsplit
  rw [hsplit.1]
  exact hload

/-- C6: `load_dataset` raises the not-found error when the path does not
exist, the unsupported-format error for an existing path whose extension
is neither `.csv` nor `.xlsx`, and returns the parsed table for existing
`.csv`/`.xlsx` paths; it inspects nothing else. -/
theorem claim_C6_loader (fs : DatasetFS) (p : String) :
    (fs.lookup p = none → load_dataset fs p = .error (.fileNotFound p)) ∧
    (∀ d, fs.lookup p = some d → pathSuffix p ≠ ".csv" → pathSuffix p ≠ ".xlsx" →
      load_dataset fs p = .error .unsupportedFormat) ∧
    (∀ d, fs.lookup p = some d → (pathSuffix p = ".csv" ∨ pathSuffix p = ".xlsx") →
      load_dataset fs p = .ok d) := by
  refine ⟨?_, ?_, ?_⟩
  · intro h
    rw [load_dataset, h]
  · intro d h h1 h2
    rw [load_dataset, h]
    simp only [if_neg h1, if_neg h2]
  · intro d h hor
    rw [load_dataset, h]
    rcases hor with h1 | h1
    · simp only [if_pos h1]
    · by_cases h2 : pathSuffix p = ".csv"
      · simp only [if_pos h2]
      · simp only [if_neg h2, if_pos h1]

/-- C6 witness: the three loader behaviours at concrete paths. -/
theorem claim_C6_loader_witness :
    load_dataset fsW "missing.csv" = .error (.fileNotFound "missing.csv") ∧
    load_dataset fsW "notes.txt" = .error .unsupportedFormat ∧
    load_dataset fsW "data.csv" = .ok dfW7 :=
  ⟨(claim_C6_loader fsW "missing.csv").1 (by decide),
   (claim_C6_loader fsW "notes.txt").2.1 dfW7 (by decide) (by decide) (by decide),
   (claim_C6_loader fsW "data.csv").2.2 dfW7 (by decide) (Or.inl (by decide))⟩

/-- C7: for a training table whose columns are numeric or text/categorical,
`identify_categorical_features` returns exactly the names of the
non-numeric columns (set equality); it is a function of the training
table alone. -/
theorem claim_C7_categorical (x : DataFrame)
    (hdt : ∀ c ∈ x.cols, c.dtype ≠ Dtype.datetime64) :
    ∀ name, name ∈ identify_categorical_features x ↔
      ∃ c ∈ x.cols, c.name = name ∧ c.dtype.isNumeric = false := by
  intro name
  rw [identify_categorical_features]
  constructor
  · intro h
    rcases List.mem_map.mp h with ⟨c, hcf, rfl⟩
    have hmf := List.mem_filter.mp hcf
    refine ⟨c, hmf.1, rfl, ?_⟩
    have := hmf.2
    cases hd : c.dtype <;> simp_all [Dtype.isNumeric]
  · rintro ⟨c, hcm, rfl, hnum⟩
    refine List.mem_map.mpr ⟨c, List.mem_filter.mpr ⟨hcm, ?_⟩, rfl⟩
    have hne := hdt c hcm
    cases hd : c.dtype <;> simp_all [Dtype.isNumeric]

/-- C7 witness: the identifier at a mixed table, with the computed list
and the set-characterization at a concrete name. -/
theorem claim_C7_categorical_witness :
    identify_categorical_features dfW7 = ["city", "grp"] ∧
    ("city" ∈ identify_categorical_features dfW7 ↔
      ∃ c ∈ dfW7.cols, c.name = "city" ∧ c.dtype.isNumeric = false) :=
  ⟨by decide, claim_C7_categorical dfW7 (by decide) "city"⟩

/-- C10: the existence check of `load_dataset` precedes the extension
dispatch — a missing path yields the not-found error whatever its
extension, and the unsupported-format error can only arise for an
existing path. -/
theorem claim_C10_order (fs : DatasetFS) (p : String) :
    (fs.lookup p = none → load_dataset fs p = .error (.fileNotFound p)) ∧
    (load_dataset fs p = .error .unsupportedFormat → (fs.lookup p).isSome = true) := by
  constructor
  · intro h
    rw [load_dataset, h]
  · intro h
    cases hl : fs.lookup p with
    | none =>
      rw [load_dataset, hl] at h
      simp at h
    | some d => rfl

/-- C10 witness: a missing path with an unsupported extension still
reports not-found, and a concrete unsupported-format outcome implies the
path existed. -/
theorem claim_C10_order_witness :
    load_dataset fsW "weird.xyz" = .error (.fileNotFound "weird.xyz") ∧
    ((fsW.lookup "notes.txt").isSome = true) :=
  ⟨(claim_C10_order fsW "weird.xyz").1 (by decide),
   (claim_C10_order fsW "notes.txt").2 ((claim_C6_loader fsW "notes.txt").2.1 dfW7
     (by decide) (by decide) (by decide))⟩
